import Mathlib

/-!
A shallow embedding of `file_diff.c` and its properties.

The program compares two text files line by line (`diff_files`), using
`compare_lines` (optionally ignoring whitespace and case) as the equality
test, and prints one report per differing line number followed by a summary.

Conventions of the embedding

* A C `char` is a byte, represented by its value as a `Nat`; `0` is the
  string terminator. A buffer is the list of the bytes stored in it; reading
  past the stored bytes yields the terminator.
* The `int` counters `line` and `differences` are 32-bit and wrap around. Each
  is kept as the natural number of its increments, and every use of its value
  (a `%d` of `printf`, the test `differences == 0`) reads `int32` of that
  number, the value the machine integer holds. Theorems on reported line
  numbers and totals assume fewer than `INT_MAX` lines, so that nothing wraps.
* The global option flags are collected in the record `Options`.
* An input file is either unopenable (`none`) or the sequence of strings that
  successive `fgets(_, MAX_LINE, _)` calls deliver.
* Standard output is the list of the texts written by the successive `printf`
  calls, in order.
* A function whose C code would write outside one of its `MAX_LINE` byte
  buffers returns `none`.
-/

namespace FileDiff

/-! ## Constants and options -/

/-- Bytes of an ASCII string literal. -/
def lit (s : String) : List Nat := s.data.map Char.toNat

/-- The size of every line buffer: `#define MAX_LINE 2048`. -/
def MAX_LINE : Nat := 2048

/-- The escape sequence `"\033[0m"`. -/
def COLOR_RESET : List Nat := lit "\x1b[0m"

/-- The escape sequence `"\033[31m"`. -/
def RED : List Nat := lit "\x1b[31m"

/-- The escape sequence `"\033[32m"`. -/
def GREEN : List Nat := lit "\x1b[32m"

/-- The escape sequence `"\033[33m"`. -/
def YELLOW : List Nat := lit "\x1b[33m"

/-- The five global option flags of the program. -/
structure Options where
  opt_color : Bool
  opt_char_diff : Bool
  opt_unified : Bool
  opt_ignore_ws : Bool
  opt_ignore_case : Bool
deriving DecidableEq, Repr

/-! ## The C library functions the program calls (in the "C" locale) -/

/-- The library test `isspace`: space, `\t`, `\n`, `\v`, `\f`, `\r`. -/
def isspace (c : Nat) : Bool := c == 32 || (9 ≤ c && c ≤ 13)

/-- The library map `tolower`: `A`..`Z` go to `a`..`z`, every other byte is kept. -/
def tolower (c : Nat) : Nat := if 65 ≤ c ∧ c ≤ 90 then c + 32 else c

/-- The C string stored in a buffer: the bytes before the first terminator. -/
def cstr : List Nat → List Nat
  | [] => []
  | c :: s => if c = 0 then [] else c :: cstr s

/-- The library function `strlen`. -/
def strlen (s : List Nat) : Nat := (cstr s).length

/-- The library function `strcpy` into a buffer of `cap` bytes: the new content
of the buffer, or `none` when the string and its terminator do not fit. -/
def strcpy (cap : Nat) (src : List Nat) : Option (List Nat) :=
  if strlen src < cap then some (cstr src) else none

/-- The library function `strcmp`: the difference of the first pair of bytes
that differ, `0` when both strings end together. -/
def strcmp : List Nat → List Nat → Int
  | [], [] => 0
  | [], y :: _ => -(y : Int)
  | x :: _, [] => (x : Int)
  | x :: a, y :: b =>
    if x ≠ y then (x : Int) - (y : Int)
    else if x = 0 then 0
    else strcmp a b

/-- The largest value of an `int`: `2^31 - 1`. -/
def INT_MAX : Nat := 2147483647

/-- The value of a 32-bit `int` variable whose mathematical value, counted
without overflow, is `n`: `n` modulo `2^32`, taken in `[-2^31, 2^31)`. -/
def int32 (n : Nat) : Int :=
  if n % 4294967296 < 2147483648 then ((n % 4294967296 : Nat) : Int)
  else ((n % 4294967296 : Nat) : Int) - 4294967296

/-- The conversion `%d` of `printf`: a minus sign for a negative argument, then
the decimal digits of the absolute value. -/
def fmt_d (v : Int) : List Nat :=
  if v < 0 then 45 :: (Nat.toDigits 10 (-v).toNat).map Char.toNat
  else (Nat.toDigits 10 v.toNat).map Char.toNat

/-- The library function `fgets(_, MAX_LINE, _)` on a stream: the string it
delivers (`none` for `NULL` at end of file) and the rest of the stream. -/
def fgets : List (List Nat) → Option (List Nat) × List (List Nat)
  | [] => (none, [])
  | l :: rest => (some l, rest)

/-! ## Utility functions -/

/-- The loop of `strip_whitespace`: `s` is the part of the string not yet
scanned (from index `i` on), `tmp` the bytes already stored in `tmp[0..idx)`. -/
def strip_whitespace_loop : List Nat → List Nat → Option (List Nat)
  | [], tmp => if tmp.length < MAX_LINE then some tmp else none
  | c :: s, tmp =>
    if c = 0 then
      if tmp.length < MAX_LINE then some tmp else none
    else if !isspace c then
      if tmp.length < MAX_LINE then strip_whitespace_loop s (tmp ++ [c]) else none
    else strip_whitespace_loop s tmp

/-- The function `strip_whitespace`: the new content of `s`. The final
`strcpy(s, tmp)` always fits, `tmp` being no longer than `s` was. -/
def strip_whitespace (s : List Nat) : Option (List Nat) :=
  strip_whitespace_loop s []

/-- The function `to_lowercase`: the new content of `s`. -/
def to_lowercase : List Nat → List Nat
  | [] => []
  | c :: s => if c = 0 then c :: s else tolower c :: to_lowercase s

/-- The function `compare_lines`. -/
def compare_lines (o : Options) (a b : List Nat) : Option Int :=
  match strcpy MAX_LINE a, strcpy MAX_LINE b with
  | some la, some lb =>
    let stripped : Option (List Nat × List Nat) :=
      if o.opt_ignore_ws then
        match strip_whitespace la, strip_whitespace lb with
        | some la, some lb => some (la, lb)
        | _, _ => none
      else some (la, lb)
    match stripped with
    | some (la, lb) =>
      if o.opt_ignore_case then some (strcmp (to_lowercase la) (to_lowercase lb))
      else some (strcmp la lb)
    | none => none
  | _, _ => none

/-! ## Character-by-character output -/

/-- The loop of `char_diff`: `k` iterations remain, the next index is `i`. -/
def char_diff_loop (a b : List Nat) (lenA lenB : Nat) : Nat → Nat → List (List Nat)
  | 0, _ => []
  | k + 1, i =>
    (if i ≥ lenA then GREEN ++ [43] ++ [b.getD i 0] ++ COLOR_RESET
     else if i ≥ lenB then RED ++ [45] ++ [a.getD i 0] ++ COLOR_RESET
     else if a.getD i 0 ≠ b.getD i 0 then YELLOW ++ [43] ++ [b.getD i 0] ++ COLOR_RESET
     else [a.getD i 0]) :: char_diff_loop a b lenA lenB k (i + 1)

/-- The function `char_diff`: the texts it prints. -/
def char_diff (a b : List Nat) : List (List Nat) :=
  let lenA := strlen a
  let lenB := strlen b
  let max := if lenA > lenB then lenA else lenB
  [lit "  "] ++ char_diff_loop a b lenA lenB max 0 ++ [lit "\n"]

/-! ## Unified output -/

/-- The function `unified_print`: the texts it prints; `none` is `NULL`. -/
def unified_print (o : Options) (_line : Int) (a b : Option (List Nat)) : List (List Nat) :=
  (match a with
   | some a => [(if o.opt_color then RED else []) ++ [45] ++ cstr a
                 ++ (if o.opt_color then COLOR_RESET else [])]
   | none => []) ++
  (match b with
   | some b => [(if o.opt_color then GREEN else []) ++ [45] ++ cstr b
                 ++ (if o.opt_color then COLOR_RESET else [])]
   | none => [])

/-! ## The diff engine -/

/-- What one pass through the difference branch of `diff_files` reports: the
line number and the two strings read, `none` standing for a file that had
already ended (`r1 ? line1 : NULL`, `r2 ? line2 : NULL`). The field `line` is
the number of the pass, which is the position of the two lines in their
files; the value of the variable `line` in that pass, the number printed, is
`int32 line`. -/
structure DiffRecord where
  line : Nat
  file1 : Option (List Nat)
  file2 : Option (List Nat)
deriving DecidableEq, Repr

/-- The state of the loop of `diff_files`: the variables `line` and
`differences`, the texts printed so far, and the history of the passes
through the difference branch. The two `int` variables are kept as the
natural numbers they would hold without overflow (one more than the number of
passes made, and the number of passes through the difference branch); the
values the machine integers hold are `int32 line` and `int32 differences`. -/
structure DiffState where
  line : Nat
  differences : Nat
  out : List (List Nat)
  records : List DiffRecord
deriving DecidableEq, Repr

/-- The texts printed by one pass through the difference branch of
`diff_files`, `line` being the value of the variable `line`. -/
def report_difference (o : Options) (line : Int) (r1 r2 : Option (List Nat)) :
    List (List Nat) :=
  if o.opt_unified then
    [lit "@@ -" ++ fmt_d line ++ lit " +" ++ fmt_d line ++ lit " @@\n"]
      ++ unified_print o line r1 r2
  else
    [lit "Difference at line " ++ fmt_d line ++ lit ":\n",
     lit "File1: " ++ (if o.opt_color then RED else [])
       ++ (match r1 with | some line1 => cstr line1 | none => lit "<EOF>\n")
       ++ (if o.opt_color then COLOR_RESET else []),
     lit "File2: " ++ (if o.opt_color then GREEN else [])
       ++ (match r2 with | some line2 => cstr line2 | none => lit "<EOF>\n")
       ++ (if o.opt_color then COLOR_RESET else [])]
      ++ (match r1, r2 with
          | some line1, some line2 =>
            if o.opt_char_diff then [lit "Char diff:\n"] ++ char_diff line1 line2 else []
          | _, _ => [])
      ++ [lit "---------------------------------\n"]

/-- The `while (1)` loop of `diff_files`, run for at most `fuel` iterations
(`none` when the fuel runs out or a buffer would overflow). The value of
`line` handed to `printf` is `int32 st.line`. -/
def diff_loop (o : Options) :
    Nat → List (List Nat) → List (List Nat) → DiffState → Option DiffState
  | 0, _, _, _ => none
  | fuel + 1, fptr1, fptr2, st =>
    let r1 := (fgets fptr1).1
    let r2 := (fgets fptr2).1
    match r1, r2 with
    | none, none => some st
    | _, _ =>
      let differ : Option Bool :=
        match r1, r2 with
        | some line1, some line2 =>
          match compare_lines o line1 line2 with
          | some c => some (c != 0)
          | none => none
        | _, _ => some true
      match differ with
      | none => none
      | some true =>
        diff_loop o fuel (fgets fptr1).2 (fgets fptr2).2
          { line := st.line + 1,
            differences := st.differences + 1,
            out := st.out ++ report_difference o (int32 st.line) r1 r2,
            records := st.records ++ [⟨st.line, r1, r2⟩] }
      | some false =>
        diff_loop o fuel (fgets fptr1).2 (fgets fptr2).2 { st with line := st.line + 1 }

/-- The function `diff_files`: the final state of `line` and `differences`,
everything printed, and the reported differences. The loop runs at most once
per line of the longer input and once more to see both ends. The test
`differences == 0` and the total printed read `int32 st.differences`. -/
def diff_files (o : Options) (file1 file2 : Option (List (List Nat))) : Option DiffState :=
  match file1, file2 with
  | some fptr1, some fptr2 =>
    match diff_loop o (fptr1.length + fptr2.length + 1) fptr1 fptr2 ⟨1, 0, [], []⟩ with
    | some st =>
      some { st with
        out := st.out ++
          [if int32 st.differences = 0 then lit "Files are identical.\n"
           else lit "Total differences " ++ fmt_d (int32 st.differences) ++ lit "\n"] }
    | none => none
  | _, _ => some ⟨1, 0, [lit "Error opening files.\n"], []⟩

/-! ## Well-formed inputs -/

/-- A C string proper: no byte of the list is the terminator. -/
def CString (s : List Nat) : Prop := ∀ c ∈ s, c ≠ 0

instance (s : List Nat) : Decidable (CString s) := by
  unfold CString; infer_instance

/-- An ASCII string: every byte is below 128. -/
def Ascii (s : List Nat) : Prop := ∀ c ∈ s, c < 128

instance (s : List Nat) : Decidable (Ascii s) := by
  unfold Ascii; infer_instance

/-- A line as `fgets(_, MAX_LINE, _)` delivers it from a text file: a C string
shorter than `MAX_LINE`. -/
def Line (l : List Nat) : Prop := CString l ∧ l.length < MAX_LINE

instance (l : List Nat) : Decidable (Line l) := by
  unfold Line; infer_instance

/-- A sequence of lines. -/
def Lines (L : List (List Nat)) : Prop := ∀ l ∈ L, Line l

instance (L : List (List Nat)) : Decidable (Lines L) := by
  unfold Lines; infer_instance

/-! ## Notions of the specification -/

/-- The whitespace characters: space, tab, newline, vertical tab, form feed,
carriage return. -/
def whitespace : List Nat := [32, 9, 10, 11, 12, 13]

/-- The comparison key of a line: whitespace removed when ignore-whitespace
is set, then letters lowercased when ignore-case is set. -/
def normalize (o : Options) (s : List Nat) : List Nat :=
  let s1 := if o.opt_ignore_ws then s.filter (fun c => decide (c ∉ whitespace)) else s
  if o.opt_ignore_case then s1.map tolower else s1

/-- The difference records of a comparison by position, from line number `i`
on, when only the right input has lines left. -/
def positional_right : Nat → List (List Nat) → List DiffRecord
  | _, [] => []
  | i, b :: R => ⟨i, none, some b⟩ :: positional_right (i + 1) R

/-- The difference records of a comparison by position, from line number `i`
on: line `i` of the left input is set against line `i` of the right input,
and a record is made unless both exist and `compare_lines` yields `0`. -/
def positional_records (o : Options) : Nat → List (List Nat) → List (List Nat) → List DiffRecord
  | i, [], R => positional_right i R
  | i, a :: L, [] => ⟨i, some a, none⟩ :: positional_records o (i + 1) L []
  | i, a :: L, b :: R =>
    if compare_lines o a b = some 0 then positional_records o (i + 1) L R
    else ⟨i, some a, some b⟩ :: positional_records o (i + 1) L R

/-- The summary line of `diff_files` after `differences` passes through the
difference branch, the variable `differences` holding `int32 differences`. -/
def summary (differences : Nat) : List Nat :=
  if int32 differences = 0 then lit "Files are identical.\n"
  else lit "Total differences " ++ fmt_d (int32 differences) ++ lit "\n"

/-- One row of the table of the longest common subsequence: `f` is the row
of the suffix `xs`, the result is the row of `x :: xs`. -/
def lcs_row {α : Type} [DecidableEq α] (f : List α → Nat) (x : α) : List α → Nat
  | [] => 0
  | y :: ys => if x = y then f ys + 1 else max (f (y :: ys)) (lcs_row f x ys)

/-- The length of the longest common subsequence of two sequences: one more
than that of the rests when the first elements are equal, otherwise the larger
of the two lengths obtained by dropping one first element. -/
def lcs {α : Type} [DecidableEq α] : List α → List α → Nat
  | [] => fun _ => 0
  | x :: xs => lcs_row (lcs xs) x

/-- The number of same-index pairs of lines whose comparison keys are equal. -/
def equal_keys_at_same_index (o : Options) (L R : List (List Nat)) : Nat :=
  (L.zip R).countP (fun p => decide (normalize o p.1 = normalize o p.2))

/-- The difference records applied to a sequence of lines whose first line has
number `i`: at a reported line number (`int32 r.line`, the number printed)
the line is replaced by the reported File2 line, or deleted when File2 is
reported at end of file; a line that is not reported is kept; past the end of
the sequence the File2 lines of the records whose File1 is reported at end of
file are inserted. -/
def apply_records : List DiffRecord → Nat → List (List Nat) → List (List Nat)
  | recs, _, [] =>
    recs.filterMap (fun r => if r.file1 = none then r.file2 else none)
  | [], _, l :: L => l :: L
  | r :: recs, i, l :: L =>
    if int32 r.line = (i : Int) then
      match r.file2 with
      | some b => b :: apply_records recs (i + 1) L
      | none => apply_records recs (i + 1) L
    else l :: apply_records (r :: recs) (i + 1) L

/-- The mirror image of a difference record: File1 and File2 exchanged. -/
def DiffRecord.mirror (r : DiffRecord) : DiffRecord := ⟨r.line, r.file2, r.file1⟩

/-- The two lines of a record were both read and `compare_lines` found them equal. -/
def DiffRecord.equal (o : Options) (r : DiffRecord) : Prop :=
  ∃ a b, r.file1 = some a ∧ r.file2 = some b ∧ compare_lines o a b = some 0

/-- The test of the comparison by position at line number `i`: the left input
has no line `i`, or the right input has none, or `compare_lines` on the two
lines of number `i` returns a non-zero value. -/
def differs_at (o : Options) (L R : List (List Nat)) (i : Nat) : Bool :=
  decide (L.length < i) || decide (R.length < i) ||
    (match L[i - 1]?, R[i - 1]? with
     | some a, some b =>
       (match compare_lines o a b with
        | some c => c != 0
        | none => false)
     | _, _ => false)

/-- The classification of one character in the output of `char_diff`. -/
inductive CharMark where
  | unchanged (c : Nat)
  | deleted (c : Nat)
  | inserted (c : Nat)
deriving DecidableEq, Repr

/-- The reading of one text printed by the loop of `char_diff`: a bare
character is unchanged; a character preceded by `+`, inside a colour escape
and a colour reset, is inserted; one preceded by `-` is deleted. -/
def classify : List Nat → Option CharMark
  | [c] => some (CharMark.unchanged c)
  | e1 :: e2 :: e3 :: _ :: e5 :: sign :: c :: rest =>
    if [e1, e2, e3, e5] = [27, 91, 51, 109] ∧ rest = COLOR_RESET then
      if sign = 43 then some (CharMark.inserted c)
      else if sign = 45 then some (CharMark.deleted c)
      else none
    else none
  | _ => none

/-- The unchanged and deleted characters of a sequence of marks, in order. -/
def left_text (marks : List CharMark) : List Nat :=
  marks.filterMap (fun m =>
    match m with
    | CharMark.unchanged c => some c
    | CharMark.deleted c => some c
    | CharMark.inserted _ => none)

/-- The unchanged and inserted characters of a sequence of marks, in order. -/
def right_text (marks : List CharMark) : List Nat :=
  marks.filterMap (fun m =>
    match m with
    | CharMark.unchanged c => some c
    | CharMark.deleted _ => none
    | CharMark.inserted c => some c)

/-- The number of characters marked unchanged. -/
def unchanged_count (marks : List CharMark) : Nat :=
  marks.countP (fun m =>
    match m with
    | CharMark.unchanged _ => true
    | _ => false)

/-- The marks of a comparison of two strings character by character at the
same index: beyond the end of the left string the right characters are
inserted, beyond the end of the right string the left characters are deleted,
and where both have a character it is unchanged if they agree and otherwise
the right character is inserted. -/
def positional_marks : List Nat → List Nat → List CharMark
  | [], b => b.map CharMark.inserted
  | x :: a, [] => CharMark.deleted x :: positional_marks a []
  | x :: a, y :: b =>
    (if x ≠ y then CharMark.inserted y else CharMark.unchanged x) :: positional_marks a b

/-- The macro `FOPEN(fptr, filepath, "r")` in a file system `fs`, which tells
for each path whether the file can be opened and what it then delivers: the
stream, or `none` for `NULL`. -/
def FOPEN (fs : List Nat → Option (List (List Nat))) (filepath : List Nat) :
    Option (List (List Nat)) :=
  fs filepath

/-- The function `diff_files` called with the two paths `file1` and `file2` in
the file system `fs`. -/
def diff_files_paths (fs : List Nat → Option (List (List Nat))) (o : Options)
    (file1 file2 : List Nat) : Option DiffState :=
  diff_files o (FOPEN fs file1) (FOPEN fs file2)

/-! ## The 32-bit counters -/

theorem int32_of_lt {n : Nat} (h : n < 2147483648) : int32 n = (n : Int) := by
  unfold int32
  have h1 : n % 4294967296 = n := Nat.mod_eq_of_lt (by omega)
  rw [h1, if_pos h]

theorem int32_zero : int32 0 = 0 := by decide

theorem int32_eq_zero_iff (n : Nat) : int32 n = 0 ↔ n % 4294967296 = 0 := by
  unfold int32
  split <;> omega

theorem int32_eq_zero_of_lt {n : Nat} (h : n < 2147483648) : int32 n = 0 ↔ n = 0 := by
  rw [int32_of_lt h]
  omega

/-- The representation of an `int` counter by the number of its increments is
exact: one more increment takes the value `int32 n` to its successor, and from
`INT_MAX` to `-2^31`. -/
theorem int32_succ (n : Nat) :
    int32 (n + 1) = if int32 n = 2147483647 then -2147483648 else int32 n + 1 := by
  unfold int32
  split <;> split <;> split <;> omega

/-! ## Lemmas on the library functions and the utilities -/

theorem isspace_iff (c : Nat) : isspace c = true ↔ c ∈ whitespace := by
  simp only [isspace, whitespace, Bool.or_eq_true, Bool.and_eq_true, beq_iff_eq,
    decide_eq_true_eq, List.mem_cons, List.mem_singleton]
  constructor
  · rintro (h | ⟨h1, h2⟩)
    · exact Or.inl h
    · interval_cases c <;> simp
  · intro h
    rcases h with h | h | h | h | h | h | h <;> simp_all
    
theorem cstr_of_CString {s : List Nat} (h : CString s) : cstr s = s := by
  induction s with
  | nil => rfl
  | cons c s ih =>
    have hc : c ≠ 0 := h c (List.mem_cons_self _ _)
    have hs : CString s := fun x hx => h x (List.mem_cons_of_mem _ hx)
    simp [cstr, hc, ih hs]

theorem CString_tail {c : Nat} {s : List Nat} (h : CString (c :: s)) : CString s :=
  fun x hx => h x (List.mem_cons_of_mem _ hx)

theorem CString_head {c : Nat} {s : List Nat} (h : CString (c :: s)) : c ≠ 0 :=
  h c (List.mem_cons_self _ _)

theorem strip_whitespace_loop_eq (s : List Nat) :
    ∀ tmp : List Nat, CString s → tmp.length + s.length < MAX_LINE →
      strip_whitespace_loop s tmp = some (tmp ++ s.filter (fun c => !isspace c)) := by
  induction s with
  | nil => intro tmp _ hlen; simp at hlen; simp [strip_whitespace_loop, hlen]
  | cons c s ih =>
    intro tmp hs hlen
    have hc : c ≠ 0 := CString_head hs
    have hs1 : CString s := CString_tail hs
    simp only [List.length_cons] at hlen
    have htmp : tmp.length < MAX_LINE := by omega
    cases hsp : isspace c with
    | true =>
      simp only [strip_whitespace_loop, hc, hsp, if_false, Bool.not_true]
      rw [ih tmp hs1 (by omega)]
      simp [List.filter_cons, hsp]
    | false =>
      simp only [strip_whitespace_loop, hc, hsp, if_false, Bool.not_false, if_true, htmp]
      rw [ih (tmp ++ [c]) hs1 (by simp; omega)]
      simp [List.filter_cons, hsp]

theorem strip_whitespace_eq {s : List Nat} (hs : CString s) (hlen : s.length < MAX_LINE) :
    strip_whitespace s = some (s.filter (fun c => !isspace c)) := by
  have h := strip_whitespace_loop_eq s [] hs (by simpa using hlen)
  simpa [strip_whitespace] using h

theorem filter_isspace_eq (s : List Nat) :
    s.filter (fun c => !isspace c) = s.filter (fun c => decide (c ∉ whitespace)) := by
  apply List.filter_congr
  intro c _
  by_cases h : c ∈ whitespace
  · simp [h, (isspace_iff c).2 h]
  · have : isspace c = false := by
      cases hsp : isspace c with
      | true => exact absurd ((isspace_iff c).1 hsp) h
      | false => rfl
    simp [h, this]

theorem to_lowercase_eq {s : List Nat} (hs : CString s) : to_lowercase s = s.map tolower := by
  induction s with
  | nil => rfl
  | cons c s ih =>
    simp [to_lowercase, CString_head hs, ih (CString_tail hs)]

theorem tolower_ne_zero {c : Nat} (h : c ≠ 0) : tolower c ≠ 0 := by
  unfold tolower; split <;> omega

theorem CString_filter {s : List Nat} (p : Nat → Bool) (hs : CString s) :
    CString (s.filter p) :=
  fun c hc => hs c (List.mem_of_mem_filter hc)

theorem CString_map_tolower {s : List Nat} (hs : CString s) : CString (s.map tolower) := by
  intro c hc
  obtain ⟨d, hd, rfl⟩ := List.mem_map.1 hc
  exact tolower_ne_zero (hs d hd)

theorem CString_normalize (o : Options) {s : List Nat} (hs : CString s) :
    CString (normalize o s) := by
  unfold normalize
  cases o.opt_ignore_ws <;> cases o.opt_ignore_case <;>
    simp [hs, CString_filter, CString_map_tolower]

theorem strcmp_eq_zero_iff (a : List Nat) :
    ∀ b : List Nat, CString a → CString b → (strcmp a b = 0 ↔ a = b) := by
  induction a with
  | nil =>
    intro b _ hb
    cases b with
    | nil => simp [strcmp]
    | cons y b =>
      have hy : y ≠ 0 := CString_head hb
      simp [strcmp, hy]
  | cons x a ih =>
    intro b ha hb
    have hx : x ≠ 0 := CString_head ha
    cases b with
    | nil => simp [strcmp, hx]
    | cons y b =>
      have hy : y ≠ 0 := CString_head hb
      by_cases hxy : x = y
      · subst hxy
        simp [strcmp, hx, ih b (CString_tail ha) (CString_tail hb)]
      · have : (x : Int) - (y : Int) ≠ 0 := by omega
        simp [strcmp, hxy, this]

theorem compare_lines_eq (o : Options) {a b : List Nat} (ha : Line a) (hb : Line b) :
    compare_lines o a b = some (strcmp (normalize o a) (normalize o b)) := by
  obtain ⟨ha1, ha2⟩ := ha
  obtain ⟨hb1, hb2⟩ := hb
  have hfa : ∀ p : Nat → Bool, (a.filter p).length < MAX_LINE := fun p =>
    lt_of_le_of_lt (List.length_filter_le _ _) ha2
  have hfb : ∀ p : Nat → Bool, (b.filter p).length < MAX_LINE := fun p =>
    lt_of_le_of_lt (List.length_filter_le _ _) hb2
  unfold compare_lines strcpy strlen
  rw [cstr_of_CString ha1, cstr_of_CString hb1]
  simp only [ha2, hb2, if_true]
  cases hws : o.opt_ignore_ws <;> cases hcs : o.opt_ignore_case <;>
    simp [normalize, hws, hcs, strip_whitespace_eq, ha1, hb1, ha2, hb2, to_lowercase_eq,
      CString_filter, filter_isspace_eq]

theorem compare_lines_zero_iff (o : Options) {a b : List Nat} (ha : Line a) (hb : Line b) :
    compare_lines o a b = some 0 ↔ normalize o a = normalize o b := by
  rw [compare_lines_eq o ha hb, Option.some_inj]
  exact strcmp_eq_zero_iff _ _ (CString_normalize o ha.1) (CString_normalize o hb.1)

/-! ## The loop of `diff_files` -/

theorem diff_loop_eq (o : Options) :
    ∀ (fuel : Nat) (L R : List (List Nat)) (st : DiffState),
      Lines L → Lines R → max L.length R.length < fuel →
      diff_loop o fuel L R st = some
        { line := st.line + max L.length R.length,
          differences := st.differences + (positional_records o st.line L R).length,
          out := st.out ++ (positional_records o st.line L R).flatMap
            (fun r => report_difference o (int32 r.line) r.file1 r.file2),
          records := st.records ++ positional_records o st.line L R } := by
  intro fuel
  induction fuel with
  | zero => intro L R st _ _ h; omega
  | succ fuel ih =>
    intro L R st hL hR hfuel
    cases L with
    | nil =>
      cases R with
      | nil => simp [diff_loop, fgets, positional_records, positional_right]
      | cons b R =>
        have hR1 : Lines R := fun l hl => hR l (List.mem_cons_of_mem _ hl)
        simp only [List.length_cons, List.length_nil] at hfuel
        simp only [diff_loop, fgets]
        rw [ih [] R _ (by intro l hl; simp at hl) hR1 (by simp; omega)]
        simp [positional_records, positional_right]
        omega
    | cons a L =>
      have hL1 : Lines L := fun l hl => hL l (List.mem_cons_of_mem _ hl)
      cases R with
      | nil =>
        simp only [List.length_cons, List.length_nil] at hfuel
        simp only [diff_loop, fgets]
        rw [ih L [] _ hL1 (by intro l hl; simp at hl) (by simp; omega)]
        simp [positional_records]
        omega
      | cons b R =>
        have hR1 : Lines R := fun l hl => hR l (List.mem_cons_of_mem _ hl)
        have ha : Line a := hL a (List.mem_cons_self _ _)
        have hb : Line b := hR b (List.mem_cons_self _ _)
        simp only [List.length_cons] at hfuel
        have hf : max L.length R.length < fuel := by omega
        simp only [diff_loop, fgets]
        rw [compare_lines_eq o ha hb]
        by_cases hc : strcmp (normalize o a) (normalize o b) = 0
        · simp only [hc, bne_self_eq_false]
          rw [ih L R _ hL1 hR1 hf]
          simp [positional_records, compare_lines_eq o ha hb, hc]
          omega
        · have hne : (strcmp (normalize o a) (normalize o b) != 0) = true := by
            simpa using hc
          simp only [hne]
          rw [ih L R _ hL1 hR1 hf]
          simp [positional_records, compare_lines_eq o ha hb, hc]
          omega

theorem diff_files_eq (o : Options) {L R : List (List Nat)} (hL : Lines L) (hR : Lines R) :
    diff_files o (some L) (some R) = some
      { line := 1 + max L.length R.length,
        differences := (positional_records o 1 L R).length,
        out := (positional_records o 1 L R).flatMap
            (fun r => report_difference o (int32 r.line) r.file1 r.file2)
          ++ [summary (positional_records o 1 L R).length],
        records := positional_records o 1 L R } := by
  unfold diff_files
  simp only
  rw [diff_loop_eq o _ L R _ hL hR (by omega)]
  simp [summary]

/-! ## Whitespace stripping and line comparison -/

/-- Claim C8: for every string `s` shorter than `MAX_LINE`, `strip_whitespace`
returns exactly `s` with every whitespace character (space, tab, newline,
vertical tab, form feed, carriage return) removed and all other characters kept
in their order; the result holds no whitespace character; the empty string is
mapped to the empty string. -/
theorem strip_whitespace_removes_all_whitespace (s : List Nat)
    (hs : CString s) (hlen : s.length < MAX_LINE) :
    strip_whitespace s = some (s.filter (fun c => decide (c ∉ whitespace)))
    ∧ (∀ r, strip_whitespace s = some r → ∀ c ∈ r, c ∉ whitespace)
    ∧ strip_whitespace [] = some [] := by
  have h : strip_whitespace s = some (s.filter (fun c => decide (c ∉ whitespace))) := by
    rw [strip_whitespace_eq hs hlen, filter_isspace_eq]
  refine ⟨h, ?_, by decide⟩
  intro r hr c hc
  rw [h] at hr
  cases hr
  simpa using (List.mem_filter.1 hc).2

theorem strip_whitespace_removes_all_whitespace_witness :
    CString (lit " a\tb c \r\n") ∧ (lit " a\tb c \r\n").length < MAX_LINE
    ∧ strip_whitespace (lit " a\tb c \r\n") = some (lit "abc") :=
  ⟨by decide, by decide,
   (strip_whitespace_removes_all_whitespace (lit " a\tb c \r\n") (by decide) (by decide)).1.trans
     (by decide)⟩

/-- Claim C7: for all ASCII lines `a` and `b` shorter than `MAX_LINE` and every
setting of the options, `compare_lines a b` returns `0` exactly when the
normalised lines are equal; `Hello` and `hello` compare equal with ignore-case
set and unequal without it, and `a b` and `ab` compare equal with
ignore-whitespace set. -/
theorem compare_lines_zero_iff_normalize_eq :
    (∀ (o : Options) (a b : List Nat), Ascii a → Ascii b → Line a → Line b →
      ∃ r, compare_lines o a b = some r ∧ (r = 0 ↔ normalize o a = normalize o b))
    ∧ compare_lines ⟨false, false, false, false, true⟩ (lit "Hello") (lit "hello") = some 0
    ∧ (∃ r, compare_lines ⟨false, false, false, false, false⟩ (lit "Hello") (lit "hello") = some r
        ∧ r ≠ 0)
    ∧ compare_lines ⟨false, false, false, true, false⟩ (lit "a b") (lit "ab") = some 0 := by
  refine ⟨?_, by decide, ⟨-32, by decide, by decide⟩, by decide⟩
  intro o a b _ _ ha hb
  refine ⟨_, compare_lines_eq o ha hb, ?_⟩
  exact strcmp_eq_zero_iff _ _ (CString_normalize o ha.1) (CString_normalize o hb.1)

theorem compare_lines_zero_iff_normalize_eq_witness :
    Ascii (lit "Hello World\n") ∧ Ascii (lit "helloworld\n")
    ∧ Line (lit "Hello World\n") ∧ Line (lit "helloworld\n")
    ∧ ∃ r, compare_lines ⟨false, false, false, true, true⟩
          (lit "Hello World\n") (lit "helloworld\n") = some r
        ∧ (r = 0 ↔ normalize ⟨false, false, false, true, true⟩ (lit "Hello World\n")
                    = normalize ⟨false, false, false, true, true⟩ (lit "helloworld\n")) :=
  ⟨by decide, by decide, by decide, by decide,
   compare_lines_zero_iff_normalize_eq.1 ⟨false, false, false, true, true⟩
     (lit "Hello World\n") (lit "helloworld\n") (by decide) (by decide) (by decide) (by decide)⟩

/-! ## The longest common subsequence -/

theorem lcs_nil_right {α : Type} [DecidableEq α] (xs : List α) : lcs xs [] = 0 := by
  cases xs <;> rfl

theorem lcs_cons_cons {α : Type} [DecidableEq α] (x y : α) (xs ys : List α) :
    lcs (x :: xs) (y :: ys) =
      if x = y then lcs xs ys + 1 else max (lcs xs (y :: ys)) (lcs (x :: xs) ys) := rfl

theorem lcs_cons_left_le {α : Type} [DecidableEq α] (x : α) (xs : List α)
    (hmono : ∀ ys y, lcs xs ys ≤ lcs xs (y :: ys)) :
    ∀ ys, lcs (x :: xs) ys ≤ lcs xs ys + 1 := by
  intro ys
  induction ys with
  | nil => simp [lcs_nil_right]
  | cons y ys ih =>
    rw [lcs_cons_cons]
    have h1 := hmono ys y
    split
    · omega
    · exact max_le (by omega) (by omega)

theorem lcs_le_cons_right {α : Type} [DecidableEq α] (xs : List α) :
    ∀ ys y, lcs xs ys ≤ lcs xs (y :: ys) := by
  induction xs with
  | nil => intro ys y; simp [lcs]
  | cons x xs ih =>
    intro ys y
    rw [lcs_cons_cons]
    split
    · exact lcs_cons_left_le x xs ih ys
    · exact le_max_right _ _

theorem lcs_cons_right_le {α : Type} [DecidableEq α] (xs : List α) :
    ∀ ys y, lcs xs (y :: ys) ≤ lcs xs ys + 1 := by
  induction xs with
  | nil => intro ys y; simp [lcs]
  | cons x xs ih =>
    have hleft : ∀ ys, lcs xs ys ≤ lcs (x :: xs) ys := by
      intro ys
      induction ys with
      | nil => simp [lcs_nil_right]
      | cons y ys _ =>
        rw [lcs_cons_cons]
        split
        · exact ih ys y
        · exact le_max_left _ _
    intro ys y
    rw [lcs_cons_cons]
    have h1 := hleft ys
    have h2 := ih ys y
    split
    · omega
    · exact max_le (by omega) (by omega)

theorem lcs_le_cons_left {α : Type} [DecidableEq α] (x : α) (xs : List α) :
    ∀ ys, lcs xs ys ≤ lcs (x :: xs) ys := by
  intro ys
  induction ys with
  | nil => simp [lcs_nil_right]
  | cons y ys _ =>
    rw [lcs_cons_cons]
    split
    · exact lcs_cons_right_le xs ys y
    · exact le_max_left _ _

theorem sublist_length_le_lcs {α : Type} [DecidableEq α] (xs : List α) :
    ∀ (ys s : List α), s.Sublist xs → s.Sublist ys → s.length ≤ lcs xs ys := by
  induction xs with
  | nil =>
    intro ys s h1 _
    simp [List.sublist_nil.1 h1]
  | cons x xs ihx =>
    intro ys
    induction ys with
    | nil =>
      intro s _ h2
      simp [List.sublist_nil.1 h2]
    | cons y ys ihy =>
      intro s h1 h2
      cases h1 with
      | cons _ h1 =>
        exact le_trans (ihx (y :: ys) s h1 h2) (lcs_le_cons_left x xs (y :: ys))
      | cons₂ _ h1 =>
        rename_i s1
        cases h2 with
        | cons _ h2 =>
          exact le_trans (ihy (x :: s1) (List.Sublist.cons₂ x h1) h2)
            (lcs_le_cons_right (x :: xs) ys y)
        | cons₂ _ h2 =>
          have h := ihx ys s1 h1 h2
          simp only [lcs_cons_cons, if_true, List.length_cons]
          omega

theorem exists_sublist_length_eq_lcs {α : Type} [DecidableEq α] (xs : List α) :
    ∀ ys : List α,
      ∃ s : List α, s.Sublist xs ∧ s.Sublist ys ∧ s.length = lcs xs ys := by
  induction xs with
  | nil => intro ys; exact ⟨[], List.Sublist.slnil, List.nil_sublist ys, rfl⟩
  | cons x xs ihx =>
    intro ys
    induction ys with
    | nil => exact ⟨[], List.nil_sublist _, List.Sublist.slnil, by simp [lcs_nil_right]⟩
    | cons y ys ihy =>
      rw [lcs_cons_cons]
      by_cases hxy : x = y
      · subst hxy
        obtain ⟨s, h1, h2, h3⟩ := ihx ys
        exact ⟨x :: s, List.Sublist.cons₂ x h1, List.Sublist.cons₂ x h2, by simp [h3]⟩
      · simp only [hxy, if_false]
        rcases le_total (lcs xs (y :: ys)) (lcs (x :: xs) ys) with h | h
        · obtain ⟨s, h1, h2, h3⟩ := ihy
          exact ⟨s, h1, List.Sublist.cons y h2, by rw [h3, max_eq_right h]⟩
        · obtain ⟨s, h1, h2, h3⟩ := ihx (y :: ys)
          exact ⟨s, List.Sublist.cons x h1, h2, by rw [h3, max_eq_left h]⟩

theorem equal_keys_le_lcs (o : Options) (L : List (List Nat)) :
    ∀ R, equal_keys_at_same_index o L R ≤ lcs (L.map (normalize o)) (R.map (normalize o)) := by
  induction L with
  | nil => intro R; simp [equal_keys_at_same_index]
  | cons a L ih =>
    intro R
    cases R with
    | nil => simp [equal_keys_at_same_index]
    | cons b R =>
      have h := ih R
      unfold equal_keys_at_same_index at h ⊢
      simp only [List.zip_cons_cons, List.map_cons, lcs_cons_cons, List.countP_cons]
      by_cases hab : normalize o a = normalize o b
      · simp [hab]; exact h
      · simp only [hab, decide_False, if_false]
        have h2 := lcs_le_cons_right (L.map (normalize o)) (R.map (normalize o)) (normalize o b)
        have h3 := le_max_left (lcs (L.map (normalize o)) (normalize o b :: R.map (normalize o)))
          (lcs (normalize o a :: L.map (normalize o)) (R.map (normalize o)))
        simp only [Bool.false_eq_true, if_false, Nat.add_zero]
        omega

/-! ## Comparison by position -/

theorem positional_right_length (i : Nat) (R : List (List Nat)) :
    (positional_right i R).length = R.length := by
  induction R generalizing i with
  | nil => rfl
  | cons b R ih => simp [positional_right, ih]

theorem Lines_tail {a : List Nat} {L : List (List Nat)} (h : Lines (a :: L)) : Lines L :=
  fun l hl => h l (List.mem_cons_of_mem _ hl)

theorem Lines_head {a : List Nat} {L : List (List Nat)} (h : Lines (a :: L)) : Line a :=
  h a (List.mem_cons_self _ _)

theorem Lines_nil : Lines [] := fun _ h => absurd h (List.not_mem_nil _)

theorem positional_records_length_add (o : Options) (L : List (List Nat)) :
    ∀ (i : Nat) (R : List (List Nat)), Lines L → Lines R →
      (positional_records o i L R).length + equal_keys_at_same_index o L R
        = max L.length R.length := by
  induction L with
  | nil =>
    intro i R _ _
    simp [positional_records, positional_right_length, equal_keys_at_same_index]
  | cons a L ih =>
    intro i R hL hR
    cases R with
    | nil =>
      have h := ih (i + 1) [] (Lines_tail hL) Lines_nil
      simp [positional_records, equal_keys_at_same_index] at h ⊢
      exact h
    | cons b R =>
      have h := ih (i + 1) R (Lines_tail hL) (Lines_tail hR)
      have hc := compare_lines_zero_iff o (Lines_head hL) (Lines_head hR)
      unfold equal_keys_at_same_index at h ⊢
      simp only [positional_records, List.zip_cons_cons, List.countP_cons, List.length_cons]
      by_cases hab : normalize o a = normalize o b
      · simp only [hc.2 hab, if_true, hab, decide_True]
        omega
      · have hne : ¬ compare_lines o a b = some 0 := fun h0 => hab (hc.1 h0)
        simp only [hne, if_false, hab, decide_False, List.length_cons]
        simp only [Bool.false_eq_true, if_false]
        omega

theorem positional_records_self (o : Options) (L : List (List Nat)) :
    ∀ i : Nat, Lines L → positional_records o i L L = [] := by
  induction L with
  | nil => intro i _; rfl
  | cons a L ih =>
    intro i hL
    have hc := (compare_lines_zero_iff o (Lines_head hL) (Lines_head hL)).2 rfl
    simp [positional_records, hc, ih (i + 1) (Lines_tail hL)]

theorem positional_right_mem_iff (R : List (List Nat)) :
    ∀ (i : Nat) (r : DiffRecord),
      r ∈ positional_right i R ↔
        i ≤ r.line ∧ r.line < i + R.length ∧ r.file1 = none ∧ r.file2 = R[r.line - i]? := by
  induction R with
  | nil =>
    intro i r
    simp only [positional_right, List.not_mem_nil, List.length_nil, false_iff]
    omega
  | cons b R ih =>
    intro i r
    obtain ⟨l, f1, f2⟩ := r
    simp only [positional_right, List.mem_cons, ih (i + 1), DiffRecord.mk.injEq,
      List.length_cons]
    rcases Nat.lt_trichotomy l i with h | h | h
    · constructor
      · rintro (⟨h1, _⟩ | ⟨h1, _⟩) <;> omega
      · rintro ⟨h1, _⟩; omega
    · subst h
      simp
    · obtain ⟨k, rfl⟩ : ∃ k, l = i + 1 + k := ⟨l - (i + 1), by omega⟩
      have e1 : i + 1 + k - (i + 1) = k := by omega
      have e2 : i + 1 + k - i = k + 1 := by omega
      simp only [e1, e2, List.getElem?_cons_succ]
      constructor
      · rintro (⟨h1, _⟩ | ⟨_, h2, h3, h4⟩)
        · omega
        · exact ⟨by omega, by omega, h3, h4⟩
      · rintro ⟨_, h2, h3, h4⟩
        exact Or.inr ⟨by omega, by omega, h3, h4⟩

theorem positional_records_mem_iff (o : Options) (L : List (List Nat)) :
    ∀ (i : Nat) (R : List (List Nat)) (r : DiffRecord),
      r ∈ positional_records o i L R ↔
        i ≤ r.line ∧ r.line < i + max L.length R.length
          ∧ r.file1 = L[r.line - i]? ∧ r.file2 = R[r.line - i]? ∧ ¬ r.equal o := by
  induction L with
  | nil =>
    intro i R r
    simp only [positional_records, positional_right_mem_iff, List.length_nil,
      List.getElem?_nil, DiffRecord.equal]
    constructor
    · rintro ⟨h1, h2, h3, h4⟩
      refine ⟨h1, by simpa using h2, h3, h4, ?_⟩
      rintro ⟨a, b, ha, _⟩
      rw [h3] at ha
      cases ha
    · rintro ⟨h1, h2, h3, h4, _⟩
      exact ⟨h1, by simpa using h2, h3, h4⟩
  | cons a L ih =>
    intro i R r
    obtain ⟨l, f1, f2⟩ := r
    cases R with
    | nil =>
      simp only [positional_records, List.mem_cons, ih (i + 1), DiffRecord.mk.injEq,
        List.length_cons, List.length_nil, List.getElem?_nil, DiffRecord.equal]
      rcases Nat.lt_trichotomy l i with h | h | h
      · constructor
        · rintro (⟨h1, _⟩ | ⟨h1, _⟩) <;> omega
        · rintro ⟨h1, _⟩; omega
      · subst h
        simp
        rintro rfl rfl
        simp
      · obtain ⟨k, rfl⟩ : ∃ k, l = i + 1 + k := ⟨l - (i + 1), by omega⟩
        have e1 : i + 1 + k - (i + 1) = k := by omega
        have e2 : i + 1 + k - i = k + 1 := by omega
        simp only [e1, e2, List.getElem?_cons_succ]
        constructor
        · rintro (⟨h1, _⟩ | ⟨_, h2, h3, h4, h5⟩)
          · omega
          · refine ⟨by omega, ?_, h3, h4, h5⟩
            simp at h2 ⊢; omega
        · rintro ⟨_, h2, h3, h4, h5⟩
          refine Or.inr ⟨by omega, ?_, h3, h4, h5⟩
          simp at h2 ⊢; omega
    | cons b R =>
      have hstep : ∀ recs : List DiffRecord,
          (∀ r : DiffRecord, r ∈ recs ↔ i + 1 ≤ r.line ∧ r.line < i + 1 + max L.length R.length
            ∧ r.file1 = L[r.line - (i + 1)]? ∧ r.file2 = R[r.line - (i + 1)]? ∧ ¬ r.equal o) →
          i < l →
          ((⟨l, f1, f2⟩ : DiffRecord) ∈ recs ↔
            i ≤ l ∧ l < i + max (L.length + 1) (R.length + 1)
              ∧ f1 = (a :: L)[l - i]? ∧ f2 = (b :: R)[l - i]?
              ∧ ¬ (⟨l, f1, f2⟩ : DiffRecord).equal o) := by
        intro recs hrecs h
        obtain ⟨k, rfl⟩ : ∃ k, l = i + 1 + k := ⟨l - (i + 1), by omega⟩
        have e1 : i + 1 + k - (i + 1) = k := by omega
        have e2 : i + 1 + k - i = k + 1 := by omega
        rw [hrecs]
        simp only [e1, e2, List.getElem?_cons_succ]
        constructor
        · rintro ⟨_, h2, h3, h4, h5⟩
          exact ⟨by omega, by omega, h3, h4, h5⟩
        · rintro ⟨_, h2, h3, h4, h5⟩
          exact ⟨by omega, by omega, h3, h4, h5⟩
      simp only [List.length_cons]
      rcases Nat.lt_trichotomy l i with h | h | h
      · constructor
        · intro hmem
          have hge : i ≤ l := by
            by_cases hc : compare_lines o a b = some 0
            · simp only [positional_records, hc, if_true] at hmem
              have := ((ih (i + 1) R _).1 hmem).1
              simp at this; omega
            · simp only [positional_records, hc, if_false, List.mem_cons,
                DiffRecord.mk.injEq] at hmem
              rcases hmem with ⟨h1, _⟩ | hmem
              · omega
              · have := ((ih (i + 1) R _).1 hmem).1
                simp at this; omega
          omega
        · rintro ⟨h1, _⟩; omega
      · subst h
        have hnot : (⟨l, f1, f2⟩ : DiffRecord) ∉ positional_records o (l + 1) L R := by
          intro hmem
          have := ((ih (l + 1) R _).1 hmem).1
          simp at this
        by_cases hc : compare_lines o a b = some 0
        · simp only [positional_records, hc, if_true]
          constructor
          · intro hmem; exact absurd hmem hnot
          · rintro ⟨_, _, h3, h4, h5⟩
            simp at h3 h4
            exact absurd ⟨a, b, h3, h4, hc⟩ h5
        · simp only [positional_records, hc, if_false, List.mem_cons, DiffRecord.mk.injEq]
          constructor
          · rintro (⟨_, rfl, rfl⟩ | hmem)
            · refine ⟨le_refl _, by omega, by simp, by simp, ?_⟩
              rintro ⟨a1, b1, ha1, hb1, hcc⟩
              simp at ha1 hb1
              subst ha1; subst hb1
              exact hc hcc
            · exact absurd hmem hnot
          · rintro ⟨_, _, h3, h4, _⟩
            simp at h3 h4
            exact Or.inl ⟨trivial, h3, h4⟩
      · by_cases hc : compare_lines o a b = some 0
        · simp only [positional_records, hc, if_true]
          exact hstep _ (ih (i + 1) R) h
        · simp only [positional_records, hc, if_false, List.mem_cons, DiffRecord.mk.injEq]
          rw [hstep _ (ih (i + 1) R) h]
          constructor
          · rintro (⟨h1, _⟩ | h1)
            · omega
            · exact h1
          · intro h1; exact Or.inr h1

theorem positional_records_line_ge (o : Options) {i : Nat} {L R : List (List Nat)}
    {r : DiffRecord} (h : r ∈ positional_records o i L R) : i ≤ r.line :=
  ((positional_records_mem_iff o L i R r).1 h).1

theorem positional_right_pairwise (R : List (List Nat)) :
    ∀ i : Nat, (positional_right i R).Pairwise (fun r s => r.line < s.line) := by
  induction R with
  | nil => intro i; simp [positional_right]
  | cons b R ih =>
    intro i
    simp only [positional_right, List.pairwise_cons]
    refine ⟨?_, ih (i + 1)⟩
    intro r hr
    have := ((positional_right_mem_iff R (i + 1) r).1 hr).1
    omega

theorem positional_records_pairwise (o : Options) (L : List (List Nat)) :
    ∀ (i : Nat) (R : List (List Nat)),
      (positional_records o i L R).Pairwise (fun r s => r.line < s.line) := by
  induction L with
  | nil => intro i R; exact positional_right_pairwise R i
  | cons a L ih =>
    intro i R
    have hlt : ∀ R1 : List (List Nat), ∀ r ∈ positional_records o (i + 1) L R1, i < r.line := by
      intro R1 r hr
      have := positional_records_line_ge o hr
      omega
    cases R with
    | nil =>
      simp only [positional_records, List.pairwise_cons]
      exact ⟨hlt [], ih (i + 1) []⟩
    | cons b R =>
      by_cases hc : compare_lines o a b = some 0
      · simp only [positional_records, hc, if_true]
        exact ih (i + 1) R
      · simp only [positional_records, hc, if_false, List.pairwise_cons]
        exact ⟨hlt R, ih (i + 1) R⟩

theorem mirror_mirror (r : DiffRecord) : r.mirror.mirror = r := rfl

theorem positional_records_nil_right (o : Options) (L : List (List Nat)) :
    ∀ i : Nat, positional_records o i L [] = (positional_right i L).map DiffRecord.mirror := by
  induction L with
  | nil => intro i; rfl
  | cons a L ih =>
    intro i
    simp [positional_records, positional_right, ih (i + 1), DiffRecord.mirror]

theorem positional_records_swap (o : Options) (L : List (List Nat)) :
    ∀ (i : Nat) (R : List (List Nat)), Lines L → Lines R →
      positional_records o i R L = (positional_records o i L R).map DiffRecord.mirror := by
  induction L with
  | nil =>
    intro i R _ _
    rw [positional_records_nil_right]
    rfl
  | cons a L ih =>
    intro i R hL hR
    cases R with
    | nil =>
      rw [positional_records_nil_right o (a :: L) i, List.map_map]
      simp [positional_records, Function.comp_def, mirror_mirror]
    | cons b R =>
      have hab := compare_lines_zero_iff o (Lines_head hL) (Lines_head hR)
      have hba := compare_lines_zero_iff o (Lines_head hR) (Lines_head hL)
      have h := ih (i + 1) R (Lines_tail hL) (Lines_tail hR)
      by_cases hn : normalize o a = normalize o b
      · simp [positional_records, hab.2 hn, hba.2 hn.symm, h]
      · have h1 : ¬ compare_lines o a b = some 0 := fun h0 => hn (hab.1 h0)
        have h2 : ¬ compare_lines o b a = some 0 := fun h0 => hn (hba.1 h0).symm
        simp [positional_records, h1, h2, h, DiffRecord.mirror]

theorem positional_records_eq_nil_iff (o : Options) (L : List (List Nat)) :
    ∀ (i : Nat) (R : List (List Nat)), Lines L → Lines R →
      (positional_records o i L R = [] ↔
        L.length = R.length ∧ ∀ p ∈ L.zip R, normalize o p.1 = normalize o p.2) := by
  induction L with
  | nil =>
    intro i R _ _
    cases R with
    | nil => simp [positional_records, positional_right]
    | cons b R => simp [positional_records, positional_right]
  | cons a L ih =>
    intro i R hL hR
    cases R with
    | nil => simp [positional_records]
    | cons b R =>
      have hab := compare_lines_zero_iff o (Lines_head hL) (Lines_head hR)
      have h := ih (i + 1) R (Lines_tail hL) (Lines_tail hR)
      by_cases hn : normalize o a = normalize o b
      · simp [positional_records, hab.2 hn, h, hn]
      · have h1 : ¬ compare_lines o a b = some 0 := fun h0 => hn (hab.1 h0)
        simp [positional_records, h1, hn]

theorem equal_keys_le_min (o : Options) (L R : List (List Nat)) :
    equal_keys_at_same_index o L R ≤ min L.length R.length := by
  unfold equal_keys_at_same_index
  calc List.countP _ (L.zip R) ≤ (L.zip R).length := List.countP_le_length _
    _ = min L.length R.length := List.length_zip _ _

theorem positional_records_length_bounds (o : Options) (i : Nat) {L R : List (List Nat)}
    (hL : Lines L) (hR : Lines R) :
    max L.length R.length - min L.length R.length ≤ (positional_records o i L R).length
      ∧ (positional_records o i L R).length ≤ max L.length R.length := by
  have h1 := positional_records_length_add o L i R hL hR
  have h2 := equal_keys_le_min o L R
  omega

/-! ## Applying the difference records -/

theorem apply_records_nil (i : Nat) (L : List (List Nat)) : apply_records [] i L = L := by
  cases L <;> simp [apply_records]

theorem apply_positional_right (R : List (List Nat)) :
    ∀ i : Nat, apply_records (positional_right i R) i [] = R := by
  induction R with
  | nil => intro i; simp [positional_right, apply_records]
  | cons b R ih =>
    intro i
    have h := ih (i + 1)
    simp only [apply_records] at h ⊢
    simp [positional_right, h]

theorem normalize_id {o : Options} (hws : o.opt_ignore_ws = false)
    (hcase : o.opt_ignore_case = false) (s : List Nat) : normalize o s = s := by
  simp [normalize, hws, hcase]

theorem apply_positional_records (o : Options) (hws : o.opt_ignore_ws = false)
    (hcase : o.opt_ignore_case = false) (L : List (List Nat)) :
    ∀ (i : Nat) (R : List (List Nat)), Lines L → Lines R →
      i + max L.length R.length ≤ 2147483648 →
      apply_records (positional_records o i L R) i L = R := by
  induction L with
  | nil => intro i R _ _ _; exact apply_positional_right R i
  | cons a L ih =>
    intro i R hL hR hb
    have hi : int32 i = (i : Int) := int32_of_lt (by simp only [List.length_cons] at hb; omega)
    cases R with
    | nil =>
      have h := ih (i + 1) [] (Lines_tail hL) Lines_nil
        (by simp only [List.length_cons, List.length_nil] at hb ⊢; omega)
      simp [positional_records, apply_records, h, hi]
    | cons b R =>
      have hab := compare_lines_zero_iff o (Lines_head hL) (Lines_head hR)
      rw [normalize_id hws hcase, normalize_id hws hcase] at hab
      have h := ih (i + 1) R (Lines_tail hL) (Lines_tail hR)
        (by simp only [List.length_cons] at hb ⊢; omega)
      by_cases hc : compare_lines o a b = some 0
      · have hEq : a = b := hab.1 hc
        simp only [positional_records, hc, if_true]
        cases hrecs : positional_records o (i + 1) L R with
        | nil =>
          rw [hrecs, apply_records_nil] at h
          rw [apply_records_nil, h, hEq]
        | cons r recs =>
          have hmem : r ∈ positional_records o (i + 1) L R :=
            hrecs ▸ List.mem_cons_self r recs
          have hge : i + 1 ≤ r.line := positional_records_line_ge o hmem
          have hlt : r.line < i + 1 + max L.length R.length :=
            ((positional_records_mem_iff o L (i + 1) R r).1 hmem).2.1
          have hr : int32 r.line = (r.line : Int) :=
            int32_of_lt (by simp only [List.length_cons] at hb; omega)
          have hne : ¬ int32 r.line = (i : Int) := by rw [hr]; omega
          rw [hrecs] at h
          simp only [apply_records, hne, if_false, h, hEq]
      · simp [positional_records, hc, apply_records, h, hi]

/-! ## The texts printed -/

theorem char_diff_loop_chunk (a b : List Nat) (lenA lenB : Nat) :
    ∀ (k i : Nat), ∀ c ∈ char_diff_loop a b lenA lenB k i,
      c.head? = some 27 ∨ c.length = 1 := by
  intro k
  induction k with
  | zero => intro i c hc; simp [char_diff_loop] at hc
  | succ k ih =>
    intro i c hc
    simp only [char_diff_loop, List.mem_cons] at hc
    rcases hc with rfl | hc
    · split
      · left; rfl
      · split
        · left; rfl
        · split
          · left; rfl
          · right; rfl
    · exact ih (i + 1) c hc

theorem ne_identical_of_head {c : List Nat} {x : Nat} (h : c.head? = some x) (hx : x ≠ 70) :
    c ≠ lit "Files are identical.\n" := by
  rintro rfl
  have : (70 : Nat) = x := by simpa [lit] using h
  exact hx this.symm

theorem ne_identical_of_length {c : List Nat} (h : c.length ≠ 21) :
    c ≠ lit "Files are identical.\n" := by
  rintro rfl
  exact h (by decide)

theorem ne_identical_of_fifth {c : List Nat} (h : c.getD 4 0 ≠ 115) :
    c ≠ lit "Files are identical.\n" := by
  rintro rfl
  exact h (by decide)

theorem char_diff_ne_identical (a b : List Nat) :
    ∀ c ∈ char_diff a b, c ≠ lit "Files are identical.\n" := by
  intro c hc
  simp only [char_diff, List.mem_append, List.mem_singleton] at hc
  rcases hc with (rfl | hc) | rfl
  · exact ne_identical_of_length (by decide)
  · rcases char_diff_loop_chunk _ _ _ _ _ _ c hc with h | h
    · exact ne_identical_of_head h (by decide)
    · exact ne_identical_of_length (by omega)
  · exact ne_identical_of_length (by decide)

theorem unified_print_ne_identical (o : Options) (line : Int) (r1 r2 : Option (List Nat)) :
    ∀ c ∈ unified_print o line r1 r2, c ≠ lit "Files are identical.\n" := by
  intro c hc
  have key : ∀ (col : List Nat) (x : List Nat), col = [] ∨ col.head? = some 27 →
      ∀ rest : List Nat, col ++ [45] ++ x ++ rest ≠ lit "Files are identical.\n" := by
    intro col x hcol rest
    rcases hcol with rfl | h
    · exact ne_identical_of_head (x := 45) rfl (by decide)
    · cases col with
      | nil => simp at h
      | cons y col =>
        simp at h
        subst h
        exact ne_identical_of_head (x := 27) rfl (by decide)
  simp only [unified_print, List.mem_append] at hc
  rcases hc with hc | hc
  · cases r1 with
    | none => simp at hc
    | some a =>
      simp only [List.mem_singleton] at hc
      subst hc
      apply key
      cases o.opt_color
      · left; rfl
      · right; rfl
  · cases r2 with
    | none => simp at hc
    | some b =>
      simp only [List.mem_singleton] at hc
      subst hc
      apply key
      cases o.opt_color
      · left; rfl
      · right; rfl

theorem report_difference_ne_identical (o : Options) (line : Int) (r1 r2 : Option (List Nat)) :
    ∀ c ∈ report_difference o line r1 r2, c ≠ lit "Files are identical.\n" := by
  intro c hc
  unfold report_difference at hc
  split at hc
  · simp only [List.mem_append, List.mem_singleton] at hc
    rcases hc with rfl | hc
    · exact ne_identical_of_head (x := 64) rfl (by decide)
    · exact unified_print_ne_identical o line r1 r2 c hc
  · simp only [List.mem_append, List.mem_cons, List.mem_singleton, List.not_mem_nil,
      or_false] at hc
    rcases hc with ((rfl | rfl | rfl) | hc) | rfl
    · exact ne_identical_of_head (x := 68) rfl (by decide)
    · exact ne_identical_of_fifth (by simp [lit])
    · exact ne_identical_of_fifth (by simp [lit])
    · split at hc
      · split at hc
        · simp only [List.mem_append, List.mem_singleton] at hc
          rcases hc with rfl | hc
          · exact ne_identical_of_length (by decide)
          · exact char_diff_ne_identical _ _ c hc
        · simp at hc
      · simp at hc
    · exact ne_identical_of_length (by decide)

theorem summary_of_zero {n : Nat} (h : int32 n = 0) :
    summary n = lit "Files are identical.\n" := by
  unfold summary
  rw [if_pos h]

theorem summary_zero : summary 0 = lit "Files are identical.\n" :=
  summary_of_zero int32_zero

theorem summary_pos {n : Nat} (h : int32 n ≠ 0) :
    summary n = lit "Total differences " ++ fmt_d (int32 n) ++ lit "\n"
      ∧ summary n ≠ lit "Files are identical.\n" := by
  have e : summary n = lit "Total differences " ++ fmt_d (int32 n) ++ lit "\n" := by
    unfold summary
    rw [if_neg h]
  refine ⟨e, ?_⟩
  rw [e]
  exact ne_identical_of_head (x := 84) rfl (by decide)

theorem identical_mem_out_iff (o : Options) (recs : List DiffRecord) (n : Nat) :
    lit "Files are identical.\n" ∈
        recs.flatMap (fun r => report_difference o (int32 r.line) r.file1 r.file2) ++ [summary n]
      ↔ int32 n = 0 := by
  constructor
  · intro h
    rcases List.mem_append.1 h with h | h
    · obtain ⟨r, _, hr⟩ := List.mem_flatMap.1 h
      exact absurd rfl (report_difference_ne_identical o _ _ _ _ hr)
    · by_contra hn
      exact (summary_pos hn).2 (List.mem_singleton.1 h).symm
  · intro h0
    exact List.mem_append.2 (Or.inr (List.mem_singleton.2 (summary_of_zero h0).symm))

/-! ## Counting the lines covered by the records -/

theorem positional_right_countP_file1 (R : List (List Nat)) :
    ∀ i : Nat, (positional_right i R).countP (fun r => r.file1.isSome) = 0 := by
  induction R with
  | nil => intro i; rfl
  | cons b R ih => intro i; simp [positional_right, List.countP_cons, ih (i + 1)]

theorem positional_right_countP_file2 (R : List (List Nat)) :
    ∀ i : Nat, (positional_right i R).countP (fun r => r.file2.isSome) = R.length := by
  induction R with
  | nil => intro i; rfl
  | cons b R ih => intro i; simp [positional_right, List.countP_cons, ih (i + 1)]

theorem positional_records_countP_file1 (o : Options) (L : List (List Nat)) :
    ∀ (i : Nat) (R : List (List Nat)), Lines L → Lines R →
      (positional_records o i L R).countP (fun r => r.file1.isSome)
        + equal_keys_at_same_index o L R = L.length := by
  induction L with
  | nil =>
    intro i R _ _
    simp [positional_records, positional_right_countP_file1, equal_keys_at_same_index]
  | cons a L ih =>
    intro i R hL hR
    cases R with
    | nil =>
      have h := ih (i + 1) [] (Lines_tail hL) Lines_nil
      simp [positional_records, equal_keys_at_same_index, List.countP_cons] at h ⊢
      exact h
    | cons b R =>
      have h := ih (i + 1) R (Lines_tail hL) (Lines_tail hR)
      have hc := compare_lines_zero_iff o (Lines_head hL) (Lines_head hR)
      unfold equal_keys_at_same_index at h ⊢
      by_cases hab : normalize o a = normalize o b
      · simp only [positional_records, hc.2 hab, if_true, List.zip_cons_cons,
          List.countP_cons, hab, decide_True, List.length_cons]
        omega
      · have hne : ¬ compare_lines o a b = some 0 := fun h0 => hab (hc.1 h0)
        simp only [positional_records, hne, if_false, List.zip_cons_cons,
          List.countP_cons, hab, decide_False, List.length_cons, Option.isSome_some, if_true,
          Bool.false_eq_true]
        omega

theorem positional_records_countP_file2 (o : Options) (L : List (List Nat)) :
    ∀ (i : Nat) (R : List (List Nat)), Lines L → Lines R →
      (positional_records o i L R).countP (fun r => r.file2.isSome)
        + equal_keys_at_same_index o L R = R.length := by
  induction L with
  | nil =>
    intro i R _ _
    simp [positional_records, positional_right_countP_file2, equal_keys_at_same_index]
  | cons a L ih =>
    intro i R hL hR
    cases R with
    | nil =>
      have h := ih (i + 1) [] (Lines_tail hL) Lines_nil
      simp [positional_records, equal_keys_at_same_index, List.countP_cons] at h ⊢
      exact h
    | cons b R =>
      have h := ih (i + 1) R (Lines_tail hL) (Lines_tail hR)
      have hc := compare_lines_zero_iff o (Lines_head hL) (Lines_head hR)
      unfold equal_keys_at_same_index at h ⊢
      by_cases hab : normalize o a = normalize o b
      · simp only [positional_records, hc.2 hab, if_true, List.zip_cons_cons,
          List.countP_cons, hab, decide_True, List.length_cons]
        omega
      · have hne : ¬ compare_lines o a b = some 0 := fun h0 => hab (hc.1 h0)
        simp only [positional_records, hne, if_false, List.zip_cons_cons,
          List.countP_cons, hab, decide_False, List.length_cons, Option.isSome_some, if_true,
          Bool.false_eq_true]
        omega

/-! ## Removing one line -/

theorem Lines_eraseIdx {L : List (List Nat)} (h : Lines L) (j : Nat) : Lines (L.eraseIdx j) :=
  fun l hl => h l (List.mem_of_mem_eraseIdx hl)

theorem positional_records_eraseIdx (o : Options) (L : List (List Nat)) :
    ∀ (i j : Nat), j < L.length → Lines L →
      1 ≤ (positional_records o i L (L.eraseIdx j)).length
        ∧ (positional_records o i L (L.eraseIdx j)).length ≤ L.length - j
        ∧ ∀ r ∈ positional_records o i L (L.eraseIdx j), i + j ≤ r.line := by
  induction L with
  | nil => intro i j hj _; simp at hj
  | cons a L ih =>
    intro i j hj hL
    cases j with
    | zero =>
      have hb := positional_records_length_bounds o i hL (Lines_tail hL)
      simp only [List.eraseIdx_cons_zero, List.length_cons] at hb ⊢
      refine ⟨by omega, by omega, ?_⟩
      intro r hr
      have := positional_records_line_ge o hr
      omega
    | succ j =>
      simp only [List.length_cons] at hj
      have h := ih (i + 1) j (by omega) (Lines_tail hL)
      have hc := (compare_lines_zero_iff o (Lines_head hL) (Lines_head hL)).2 rfl
      simp only [List.eraseIdx_cons_succ, positional_records, hc, if_true, List.length_cons]
      refine ⟨h.1, by omega, ?_⟩
      intro r hr
      have := h.2.2 r hr
      omega

/-! ## The comparison performed by `diff_files` -/

/-- Claim C1, refuted as stated: on the lines `a`, `b` against the single line
`b`, `diff_files` treats no pair of lines as equal, while the longest common
subsequence of the two key sequences has length `1`. -/
theorem diff_files_equal_pairs_below_lcs :
    (diff_files ⟨false, false, false, false, false⟩ (some [lit "a\n", lit "b\n"]) (some [lit "b\n"])).map
        (fun st => st.line - 1 - st.differences) = some 0
    ∧ lcs ([lit "a\n", lit "b\n"].map (normalize ⟨false, false, false, false, false⟩)) ([lit "b\n"].map (normalize ⟨false, false, false, false, false⟩)) = 1 := by
  decide

/-- Claim C1, as amended: for every pair of line sequences (each line shorter
than `MAX_LINE`) and every option setting, the comparison of `diff_files` is
by position under line-key equality: the number of line pairs it treats as
equal (passes of the loop that report no difference) is the number of
same-index pairs with equal keys, which is at most the length of the longest
common subsequence of the two key sequences. -/
theorem diff_files_equal_pairs_by_position (o : Options) (L R : List (List Nat))
    (hL : Lines L) (hR : Lines R) :
    ∃ st, diff_files o (some L) (some R) = some st
      ∧ st.line - 1 - st.differences = equal_keys_at_same_index o L R
      ∧ equal_keys_at_same_index o L R ≤ lcs (L.map (normalize o)) (R.map (normalize o)) := by
  refine ⟨_, diff_files_eq o hL hR, ?_, equal_keys_le_lcs o L R⟩
  have h := positional_records_length_add o L 1 R hL hR
  simp only
  omega

theorem diff_files_equal_pairs_by_position_witness :
    Lines [lit "a\n", lit "b\n", lit "c\n"] ∧ Lines [lit "a\n", lit "c\n"]
    ∧ ∃ st, diff_files ⟨false, false, false, false, false⟩ (some [lit "a\n", lit "b\n", lit "c\n"])
          (some [lit "a\n", lit "c\n"]) = some st
      ∧ st.line - 1 - st.differences
          = equal_keys_at_same_index ⟨false, false, false, false, false⟩ [lit "a\n", lit "b\n", lit "c\n"] [lit "a\n", lit "c\n"]
      ∧ equal_keys_at_same_index ⟨false, false, false, false, false⟩ [lit "a\n", lit "b\n", lit "c\n"] [lit "a\n", lit "c\n"]
          ≤ lcs ([lit "a\n", lit "b\n", lit "c\n"].map (normalize ⟨false, false, false, false, false⟩))
              ([lit "a\n", lit "c\n"].map (normalize ⟨false, false, false, false, false⟩)) :=
  ⟨by decide, by decide,
   diff_files_equal_pairs_by_position ⟨false, false, false, false, false⟩ [lit "a\n", lit "b\n", lit "c\n"]
     [lit "a\n", lit "c\n"] (by decide) (by decide)⟩

/-- Claim C2: for every sequence of lines `L` (each line shorter than
`MAX_LINE`) and every setting of the options, comparing `L` against itself
reports zero differences: no difference record is emitted and the only text
printed is the summary `Files are identical.`. -/
theorem diff_files_self_identical (o : Options) (L : List (List Nat)) (hL : Lines L) :
    ∃ st, diff_files o (some L) (some L) = some st
      ∧ st.differences = 0 ∧ st.records = []
      ∧ st.out = [lit "Files are identical.\n"] := by
  refine ⟨_, diff_files_eq o hL hL, ?_, ?_, ?_⟩ <;>
    simp [positional_records_self o L 1 hL, summary_zero]

theorem diff_files_self_identical_witness :
    Lines [lit "Hello World\n", lit "\n", lit " x\ty \n"]
    ∧ ∃ st, diff_files ⟨true, true, false, true, true⟩
          (some [lit "Hello World\n", lit "\n", lit " x\ty \n"])
          (some [lit "Hello World\n", lit "\n", lit " x\ty \n"]) = some st
      ∧ st.differences = 0 ∧ st.records = []
      ∧ st.out = [lit "Files are identical.\n"] :=
  ⟨by decide,
   diff_files_self_identical ⟨true, true, false, true, true⟩
     [lit "Hello World\n", lit "\n", lit " x\ty \n"] (by decide)⟩

/-- Claim C5: symmetry. For every pair of line sequences and every option
setting, `diff_files` on the exchanged inputs reports the same number of
differences, at the same line numbers, each record with its File1 and File2
contents exchanged, and prints the same summary. -/
theorem diff_files_symmetric (o : Options) (L R : List (List Nat))
    (hL : Lines L) (hR : Lines R) :
    ∃ st st', diff_files o (some L) (some R) = some st
      ∧ diff_files o (some R) (some L) = some st'
      ∧ st'.differences = st.differences
      ∧ st'.records.map (fun r => r.line) = st.records.map (fun r => r.line)
      ∧ st'.records = st.records.map DiffRecord.mirror
      ∧ st'.out.getLast? = st.out.getLast? := by
  have hsw := positional_records_swap o L 1 R hL hR
  refine ⟨_, _, diff_files_eq o hL hR, diff_files_eq o hR hL, ?_, ?_, ?_, ?_⟩
  · simp [hsw]
  · simp [hsw, Function.comp_def, DiffRecord.mirror]
  · simp [hsw]
  · simp [hsw]

theorem diff_files_symmetric_witness :
    Lines [lit "a\n", lit "B\n", lit "c\n"] ∧ Lines [lit "a\n", lit "b\n"]
    ∧ ∃ st st', diff_files ⟨false, false, false, false, false⟩ (some [lit "a\n", lit "B\n", lit "c\n"])
          (some [lit "a\n", lit "b\n"]) = some st
      ∧ diff_files ⟨false, false, false, false, false⟩ (some [lit "a\n", lit "b\n"])
          (some [lit "a\n", lit "B\n", lit "c\n"]) = some st'
      ∧ st'.differences = st.differences
      ∧ st'.records.map (fun r => r.line) = st.records.map (fun r => r.line)
      ∧ st'.records = st.records.map DiffRecord.mirror
      ∧ st'.out.getLast? = st.out.getLast? :=
  ⟨by decide, by decide,
   diff_files_symmetric ⟨false, false, false, false, false⟩ [lit "a\n", lit "B\n", lit "c\n"] [lit "a\n", lit "b\n"]
     (by decide) (by decide)⟩

/-! ## An empty input: the records -/

theorem positional_right_file2 (R : List (List Nat)) :
    ∀ i : Nat, (positional_right i R).map (fun r => r.file2) = R.map some := by
  induction R with
  | nil => intro i; rfl
  | cons b R ih => intro i; simp [positional_right, ih (i + 1)]

theorem positional_right_file1 {i : Nat} {R : List (List Nat)} {r : DiffRecord}
    (h : r ∈ positional_right i R) : r.file1 = none :=
  ((positional_right_mem_iff R i r).1 h).2.2.1

/-! ## One line substituted: the records -/

theorem positional_records_single (o : Options) (L : List (List Nat)) :
    ∀ (i s j : Nat) (R : List (List Nat)), Lines L → Lines R → L.length = R.length →
      j < L.length →
      (∀ p ∈ (L.zip R).enumFrom s,
        (normalize o p.2.1 = normalize o p.2.2 ↔ p.1 ≠ s + j)) →
      positional_records o i L R = [⟨i + j, L[j]?, R[j]?⟩] := by
  induction L with
  | nil => intro i s j R _ _ _ hj; simp at hj
  | cons a L ih =>
    intro i s j R hL hR hlen hj hkey
    cases R with
    | nil => simp at hlen
    | cons b R =>
      simp only [List.length_cons, Nat.add_right_cancel_iff] at hlen
      have hab := compare_lines_zero_iff o (Lines_head hL) (Lines_head hR)
      have h0 := hkey (s, (a, b)) (by simp [List.enumFrom_cons])
      have hrest : ∀ p ∈ (L.zip R).enumFrom (s + 1),
          (normalize o p.2.1 = normalize o p.2.2 ↔ p.1 ≠ s + j) := by
        intro p hp
        exact hkey p (by simp [List.enumFrom_cons, hp])
      cases j with
      | zero =>
        have hne : ¬ normalize o a = normalize o b := by
          intro h; exact (h0.1 h) rfl
        have hc : ¬ compare_lines o a b = some 0 := fun h => hne (hab.1 h)
        have hnil : positional_records o (i + 1) L R = [] := by
          rw [positional_records_eq_nil_iff o L (i + 1) R (Lines_tail hL) (Lines_tail hR)]
          refine ⟨hlen, ?_⟩
          intro p hp
          obtain ⟨n, hn, hpn⟩ := List.getElem_of_mem hp
          have hmem : (s + 1 + n, p) ∈ (L.zip R).enumFrom (s + 1) := by
            rw [List.mem_iff_getElem?]
            exact ⟨n, by simp [List.getElem?_enumFrom, List.getElem?_eq_getElem hn, hpn]⟩
          have := (hrest _ hmem).2 (by simp only; omega)
          exact this
        simp [positional_records, hc, hnil]
      | succ j =>
        have he : normalize o a = normalize o b := h0.2 (by simp only; omega)
        simp only [List.length_cons] at hj
        have h := ih (i + 1) (s + 1) j R (Lines_tail hL) (Lines_tail hR) hlen (by omega)
          (by
            intro p hp
            have := hrest p hp
            rw [this]
            constructor <;> intro h1 h2 <;> apply h1 <;> omega)
        simp only [positional_records, hab.2 he, if_true, h, List.getElem?_cons_succ]
        have e : i + 1 + j = i + (j + 1) := by omega
        rw [e]

/-! ## The reported positions -/

theorem differs_at_iff (o : Options) {L R : List (List Nat)} (hL : Lines L) (hR : Lines R)
    {i : Nat} (hi1 : 1 ≤ i) :
    differs_at o L R i = true ↔
      ¬ ∃ a b, L[i - 1]? = some a ∧ R[i - 1]? = some b ∧ compare_lines o a b = some 0 := by
  unfold differs_at
  by_cases h1 : L.length < i
  · have : L[i - 1]? = none := List.getElem?_eq_none (by omega)
    simp [h1, this]
  · by_cases h2 : R.length < i
    · have : R[i - 1]? = none := List.getElem?_eq_none (by omega)
      simp [h2, this]
    · have hiL : i - 1 < L.length := by omega
      have hiR : i - 1 < R.length := by omega
      have ha : Line L[i - 1] := hL _ (List.getElem_mem hiL)
      have hb : Line R[i - 1] := hR _ (List.getElem_mem hiR)
      simp only [h1, h2, decide_False, Bool.false_or, List.getElem?_eq_getElem hiL,
        List.getElem?_eq_getElem hiR, compare_lines_eq o ha hb]
      simp [compare_lines_eq o ha hb]

theorem positional_records_lines (o : Options) {L R : List (List Nat)}
    (hL : Lines L) (hR : Lines R) :
    (positional_records o 1 L R).map (fun r => r.line)
      = (List.range' 1 (max L.length R.length)).filter (differs_at o L R) := by
  have hs1 : ((positional_records o 1 L R).map (fun r => r.line)).Sorted (· < ·) := by
    have := positional_records_pairwise o L 1 R
    exact List.pairwise_map.2 this
  have hs2 : ((List.range' 1 (max L.length R.length)).filter (differs_at o L R)).Sorted
      (· < ·) :=
    List.Pairwise.filter _ (List.pairwise_lt_range' 1 _)
  refine List.eq_of_perm_of_sorted ?_ hs1 hs2
  rw [List.perm_ext_iff_of_nodup hs1.nodup hs2.nodup]
  intro i
  simp only [List.mem_map, List.mem_filter, List.mem_range']
  constructor
  · rintro ⟨r, hr, rfl⟩
    obtain ⟨h1, h2, h3, h4, h5⟩ := (positional_records_mem_iff o L 1 R r).1 hr
    refine ⟨⟨r.line - 1, by omega, by omega⟩, ?_⟩
    rw [differs_at_iff o hL hR h1]
    rintro ⟨a, b, ha, hb, hab⟩
    exact h5 ⟨a, b, h3.trans ha, h4.trans hb, hab⟩
  · rintro ⟨⟨n, hn, rfl⟩, hd⟩
    rw [differs_at_iff o hL hR (by omega)] at hd
    refine ⟨⟨1 + 1 * n, L[1 + 1 * n - 1]?, R[1 + 1 * n - 1]?⟩, ?_, rfl⟩
    rw [positional_records_mem_iff]
    exact ⟨by simp only; omega, by simp only; omega, rfl, rfl, hd⟩

/-! ## The ignore options relax the comparison -/

theorem strlen_of_CString {s : List Nat} (h : CString s) : strlen s = s.length := by
  unfold strlen; rw [cstr_of_CString h]

theorem classify_unchanged (c : Nat) : classify [c] = some (CharMark.unchanged c) := rfl

theorem classify_green (c : Nat) :
    classify (GREEN ++ [43] ++ [c] ++ COLOR_RESET) = some (CharMark.inserted c) := rfl

theorem classify_yellow (c : Nat) :
    classify (YELLOW ++ [43] ++ [c] ++ COLOR_RESET) = some (CharMark.inserted c) := rfl

theorem classify_red (c : Nat) :
    classify (RED ++ [45] ++ [c] ++ COLOR_RESET) = some (CharMark.deleted c) := rfl

theorem char_diff_loop_marks (a b : List Nat) :
    ∀ (k i : Nat), k = max a.length b.length - i →
      (char_diff_loop a b a.length b.length k i).map classify
        = (positional_marks (a.drop i) (b.drop i)).map some := by
  intro k
  induction k with
  | zero =>
    intro i hk
    have h1 : a.length ≤ i := by omega
    have h2 : b.length ≤ i := by omega
    simp [char_diff_loop, List.drop_eq_nil_of_le h1, List.drop_eq_nil_of_le h2,
      positional_marks]
  | succ k ih =>
    intro i hk
    have hrec := ih (i + 1) (by omega)
    simp only [char_diff_loop, List.map_cons, hrec]
    by_cases hA : a.length ≤ i
    · have hB : i < b.length := by omega
      have e1 : a.drop i = [] := List.drop_eq_nil_of_le hA
      have e2 : a.drop (i + 1) = [] := List.drop_eq_nil_of_le (by omega)
      have e3 : b.drop i = b[i] :: b.drop (i + 1) := List.drop_eq_getElem_cons hB
      have e4 : b.getD i 0 = b[i] := by simp [List.getD_eq_getElem?_getD, hB]
      simp only [ge_iff_le, hA, if_true, e1, e2, e3, e4, positional_marks, List.map_cons,
        classify_green, List.map_map]
    · have hA1 : i < a.length := by omega
      have e1 : a.drop i = a[i] :: a.drop (i + 1) := List.drop_eq_getElem_cons hA1
      have e5 : a.getD i 0 = a[i] := by simp [List.getD_eq_getElem?_getD, hA1]
      by_cases hB : b.length ≤ i
      · have e3 : b.drop i = [] := List.drop_eq_nil_of_le hB
        have e4 : b.drop (i + 1) = [] := List.drop_eq_nil_of_le (by omega)
        simp only [ge_iff_le, hA, hB, if_true, if_false, e1, e3, e4, e5, positional_marks,
          List.map_cons, classify_red]
      · have hB1 : i < b.length := by omega
        have e3 : b.drop i = b[i] :: b.drop (i + 1) := List.drop_eq_getElem_cons hB1
        have e4 : b.getD i 0 = b[i] := by simp [List.getD_eq_getElem?_getD, hB1]
        by_cases hxy : a[i] = b[i]
        · simp only [ge_iff_le, hA, hB, if_false, e1, e3, e4, e5, positional_marks,
            List.map_cons, hxy, ne_eq, not_true_eq_false, classify_unchanged]
        · simp only [ge_iff_le, hA, hB, if_false, e1, e3, e4, e5, positional_marks,
            List.map_cons, hxy, ne_eq, not_false_eq_true, if_true, classify_yellow]

theorem char_diff_marks {a b : List Nat} (ha : CString a) (hb : CString b) :
    (((char_diff a b).drop 1).dropLast).map classify = (positional_marks a b).map some := by
  have h := char_diff_loop_marks a b (max a.length b.length) 0 (by omega)
  simp only [List.drop_zero] at h
  rw [← h]
  unfold char_diff
  simp only [strlen_of_CString ha, strlen_of_CString hb]
  have e : (if a.length > b.length then a.length else b.length) = max a.length b.length := by
    split <;> omega
  rw [e]
  simp [List.dropLast_concat]

theorem right_text_inserted (b : List Nat) : right_text (b.map CharMark.inserted) = b := by
  induction b with
  | nil => rfl
  | cons y b ih =>
    unfold right_text at ih ⊢
    simp [List.filterMap_cons, ih]

theorem left_text_inserted (b : List Nat) : left_text (b.map CharMark.inserted) = [] := by
  induction b with
  | nil => rfl
  | cons y b ih =>
    unfold left_text at ih ⊢
    simp only [List.map_cons, List.filterMap_cons]
    exact ih

theorem unchanged_count_inserted (b : List Nat) :
    unchanged_count (b.map CharMark.inserted) = 0 := by
  induction b with
  | nil => rfl
  | cons y b ih =>
    unfold unchanged_count at ih ⊢
    simp only [List.map_cons, List.countP_cons, ih]
    rfl

theorem right_text_positional (a : List Nat) :
    ∀ b : List Nat, right_text (positional_marks a b) = b := by
  induction a with
  | nil => intro b; exact right_text_inserted b
  | cons x a ih =>
    intro b
    cases b with
    | nil =>
      have h := ih []
      unfold right_text at h ⊢
      simp only [positional_marks, List.filterMap_cons]
      exact h
    | cons y b =>
      have h := ih b
      unfold right_text at h ⊢
      by_cases hxy : x = y
      · simp [positional_marks, hxy, List.filterMap_cons, h]
      · simp [positional_marks, hxy, List.filterMap_cons, h]

theorem left_text_positional (a : List Nat) :
    ∀ b : List Nat, left_text (positional_marks a b)
      = ((a.zip b).filter (fun p => decide (p.1 = p.2))).map Prod.fst ++ a.drop b.length := by
  induction a with
  | nil => intro b; simp [positional_marks, left_text_inserted]
  | cons x a ih =>
    intro b
    cases b with
    | nil =>
      have h := ih []
      unfold left_text at h ⊢
      simp only [positional_marks, List.filterMap_cons]
      simp at h ⊢
      exact h
    | cons y b =>
      have h := ih b
      unfold left_text at h ⊢
      by_cases hxy : x = y
      · simp [positional_marks, hxy, List.filterMap_cons, List.filter_cons, h]
      · simp [positional_marks, hxy, List.filterMap_cons, List.filter_cons, h]

theorem unchanged_count_positional (a : List Nat) :
    ∀ b : List Nat, unchanged_count (positional_marks a b)
      = (a.zip b).countP (fun p => decide (p.1 = p.2)) := by
  induction a with
  | nil => intro b; simp [positional_marks, unchanged_count_inserted]
  | cons x a ih =>
    intro b
    cases b with
    | nil =>
      have h := ih []
      unfold unchanged_count at h ⊢
      simp only [positional_marks, List.countP_cons]
      simp at h ⊢
      exact h
    | cons y b =>
      have h := ih b
      unfold unchanged_count at h ⊢
      by_cases hxy : x = y
      · simp [positional_marks, hxy, List.countP_cons, h]
      · simp [positional_marks, hxy, List.countP_cons, h]

theorem countP_zip_eq_le_lcs {α : Type} [DecidableEq α] (xs : List α) :
    ∀ ys : List α, (xs.zip ys).countP (fun p => decide (p.1 = p.2)) ≤ lcs xs ys := by
  induction xs with
  | nil => intro ys; simp
  | cons x xs ih =>
    intro ys
    cases ys with
    | nil => simp
    | cons y ys =>
      have h := ih ys
      simp only [List.zip_cons_cons, lcs_cons_cons, List.countP_cons]
      by_cases hxy : x = y
      · simp [hxy]; exact h
      · have h2 := lcs_le_cons_right xs ys y
        have h3 := le_max_left (lcs xs (y :: ys)) (lcs (x :: xs) ys)
        simp only [hxy, decide_False, if_false, Bool.false_eq_true, Nat.add_zero]
        omega

/-- Claim C12, refuted as stated: for `cat` against `cot` the output of
`char_diff` is `c`, `+o`, `t` and the newline; its unchanged and deleted
characters spell `ct`, not `cat`: the character `a` is lost. -/
theorem char_diff_loses_substituted_character :
    (((char_diff (lit "cat\n") (lit "cot\n")).drop 1).dropLast).map classify
      = [some (CharMark.unchanged 99), some (CharMark.inserted 111),
         some (CharMark.unchanged 116), some (CharMark.unchanged 10)]
    ∧ left_text [CharMark.unchanged 99, CharMark.inserted 111,
         CharMark.unchanged 116, CharMark.unchanged 10] = lit "ct\n"
    ∧ lit "ct\n" ≠ lit "cat\n" := by
  decide

/-- Claim C12, as amended: for every pair of lines `a` and `b`, the output of
`char_diff` marks each character as deleted (`-`), inserted (`+`) or unchanged
(unmarked) such that the unchanged and inserted characters, read in output
order, spell `b`, and the unchanged and deleted characters, read in output
order, spell `a` with the characters left out that stand at an index where `b`
has a different character (there only the character of `b` is printed, marked
`+`): they are the characters of `a` equal to the character of `b` at the same
index, followed by the part of `a` beyond the length of `b`. -/
theorem char_diff_classification (a b : List Nat) (ha : CString a) (hb : CString b) :
    ∃ marks : List CharMark,
      (((char_diff a b).drop 1).dropLast).map classify = marks.map some
      ∧ right_text marks = b
      ∧ left_text marks
          = ((a.zip b).filter (fun p => decide (p.1 = p.2))).map Prod.fst
              ++ a.drop b.length :=
  ⟨positional_marks a b, char_diff_marks ha hb, right_text_positional a b,
    left_text_positional a b⟩

theorem char_diff_classification_witness :
    CString (lit "cat\n") ∧ CString (lit "cot\n")
    ∧ ∃ marks : List CharMark,
      (((char_diff (lit "cat\n") (lit "cot\n")).drop 1).dropLast).map classify
        = marks.map some
      ∧ right_text marks = lit "cot\n"
      ∧ left_text marks
          = (((lit "cat\n").zip (lit "cot\n")).filter (fun p => decide (p.1 = p.2))).map
              Prod.fst ++ (lit "cat\n").drop (lit "cot\n").length :=
  ⟨by decide, by decide,
   char_diff_classification (lit "cat\n") (lit "cot\n") (by decide) (by decide)⟩

/-- Claim C13, refuted as stated: for `ab` against `b` (each with its newline)
`char_diff` emits no character as unchanged, while the longest common
subsequence of the two lines has length `2`. -/
theorem char_diff_unchanged_below_lcs :
    (((char_diff (lit "ab\n") (lit "b\n")).drop 1).dropLast).map classify
      = [some (CharMark.inserted 98), some (CharMark.inserted 10),
         some (CharMark.deleted 10)]
    ∧ unchanged_count [CharMark.inserted 98, CharMark.inserted 10, CharMark.deleted 10] = 0
    ∧ lcs (lit "ab\n") (lit "b\n") = 2 := by
  decide

/-- Claim C13, as amended: character alignment is by position, as line
alignment is: for every pair of lines `a` and `b`, the number of characters
that `char_diff` emits as unchanged equals the number of indices at which `a`
and `b` have the same character, which is at most the length of the longest
common subsequence of the characters of `a` and `b`. -/
theorem char_diff_unchanged_by_position (a b : List Nat) (ha : CString a) (hb : CString b) :
    ∃ marks : List CharMark,
      (((char_diff a b).drop 1).dropLast).map classify = marks.map some
      ∧ unchanged_count marks = (a.zip b).countP (fun p => decide (p.1 = p.2))
      ∧ unchanged_count marks ≤ lcs a b := by
  refine ⟨positional_marks a b, char_diff_marks ha hb, unchanged_count_positional a b, ?_⟩
  rw [unchanged_count_positional]
  exact countP_zip_eq_le_lcs a b

theorem char_diff_unchanged_by_position_witness :
    CString (lit "Hello\n") ∧ CString (lit "Help\n")
    ∧ ∃ marks : List CharMark,
      (((char_diff (lit "Hello\n") (lit "Help\n")).drop 1).dropLast).map classify
        = marks.map some
      ∧ unchanged_count marks
          = ((lit "Hello\n").zip (lit "Help\n")).countP (fun p => decide (p.1 = p.2))
      ∧ unchanged_count marks ≤ lcs (lit "Hello\n") (lit "Help\n") :=
  ⟨by decide, by decide,
   char_diff_unchanged_by_position (lit "Hello\n") (lit "Help\n") (by decide) (by decide)⟩

/-! ## Unified output, unreadable inputs, colour -/

theorem positional_records_files (o : Options) {L R : List (List Nat)}
    (hL : Lines L) (hR : Lines R) {i : Nat} {r : DiffRecord}
    (hr : r ∈ positional_records o i L R) :
    (∀ a, r.file1 = some a → Line a) ∧ (∀ b, r.file2 = some b → Line b) := by
  obtain ⟨_, _, h3, h4, _⟩ := (positional_records_mem_iff o L i R r).1 hr
  constructor
  · intro a ha
    rw [h3] at ha
    exact hL a (List.getElem?_mem ha)
  · intro b hb
    rw [h4] at hb
    exact hR b (List.getElem?_mem hb)

/-- Claim C14, refuted as stated: with the unified option set, for `a` against
`b` the hunk header is `@@ -1 +1 @@`, without counts, and the right line is
printed with the prefix `-`, as the left line is. -/
theorem unified_output_of_one_difference :
    (diff_files ⟨false, false, true, false, false⟩ (some [lit "a\n"]) (some [lit "b\n"])).map
        (fun st => st.out)
      = some [lit "@@ -1 +1 @@\n", lit "-a\n", lit "-b\n", lit "Total differences 1\n"] := by
  decide

/-- Claim C14, as amended: with the unified option set, the output of
`diff_files` is, for every reported difference at line `l` in turn, a hunk
header of the form `@@ -l +l @@` (the line number for both sides, no counts)
followed by the left line, when present, prefixed with `-`, and then by the
right line, when present, after a prefix of one character; the summary line
ends the output. -/
theorem unified_output_format (o : Options) (L R : List (List Nat))
    (hu : o.opt_unified = true) (hL : Lines L) (hR : Lines R) :
    ∃ st, diff_files o (some L) (some R) = some st
      ∧ st.out = st.records.flatMap (fun r => report_difference o (int32 r.line) r.file1 r.file2)
                  ++ [summary st.differences]
      ∧ ∀ r ∈ st.records, ∃ right : List (List Nat),
          report_difference o (int32 r.line) r.file1 r.file2
            = [lit "@@ -" ++ fmt_d (int32 r.line) ++ lit " +" ++ fmt_d (int32 r.line) ++ lit " @@\n"]
              ++ (match r.file1 with
                  | some a => [(if o.opt_color then RED else []) ++ lit "-" ++ a
                                ++ (if o.opt_color then COLOR_RESET else [])]
                  | none => [])
              ++ right
          ∧ (match r.file2 with
             | some b => ∃ sign : Nat,
                 right = [(if o.opt_color then GREEN else []) ++ [sign] ++ b
                           ++ (if o.opt_color then COLOR_RESET else [])]
             | none => right = []) := by
  refine ⟨_, diff_files_eq o hL hR, rfl, ?_⟩
  intro r hr
  obtain ⟨h1, h2⟩ := positional_records_files o hL hR hr
  cases hf1 : r.file1 with
  | none =>
    cases hf2 : r.file2 with
    | none =>
      exact ⟨[], by simp [report_difference, hu, unified_print], rfl⟩
    | some b =>
      have hb := cstr_of_CString (h2 b hf2).1
      exact ⟨_, by simp only [report_difference, hu, if_true, unified_print, hb]; rfl,
        45, rfl⟩
  | some a =>
    have ha := cstr_of_CString (h1 a hf1).1
    cases hf2 : r.file2 with
    | none =>
      exact ⟨[], by simp only [report_difference, hu, if_true, unified_print, ha]; rfl, rfl⟩
    | some b =>
      have hb := cstr_of_CString (h2 b hf2).1
      exact ⟨_, by simp only [report_difference, hu, if_true, unified_print, ha, hb]; rfl,
        45, rfl⟩

theorem unified_output_format_witness :
    (⟨true, false, true, false, false⟩ : Options).opt_unified = true
    ∧ Lines [lit "a\n", lit "b\n"] ∧ Lines [lit "a\n"]
    ∧ ∃ st, diff_files ⟨true, false, true, false, false⟩ (some [lit "a\n", lit "b\n"])
          (some [lit "a\n"]) = some st
      ∧ st.out = st.records.flatMap (fun r =>
            report_difference ⟨true, false, true, false, false⟩ (int32 r.line) r.file1 r.file2)
          ++ [summary st.differences]
      ∧ ∀ r ∈ st.records, ∃ right : List (List Nat),
          report_difference ⟨true, false, true, false, false⟩ (int32 r.line) r.file1 r.file2
            = [lit "@@ -" ++ fmt_d (int32 r.line) ++ lit " +" ++ fmt_d (int32 r.line) ++ lit " @@\n"]
              ++ (match r.file1 with
                  | some a =>
                    [(if (⟨true, false, true, false, false⟩ : Options).opt_color then RED
                        else []) ++ lit "-" ++ a
                      ++ (if (⟨true, false, true, false, false⟩ : Options).opt_color
                          then COLOR_RESET else [])]
                  | none => [])
              ++ right
          ∧ (match r.file2 with
             | some b => ∃ sign : Nat,
                 right = [(if (⟨true, false, true, false, false⟩ : Options).opt_color
                            then GREEN else []) ++ [sign] ++ b
                           ++ (if (⟨true, false, true, false, false⟩ : Options).opt_color
                               then COLOR_RESET else [])]
             | none => right = []) :=
  ⟨rfl, by decide, by decide,
   unified_output_format ⟨true, false, true, false, false⟩ [lit "a\n", lit "b\n"]
     [lit "a\n"] rfl (by decide) (by decide)⟩

/-- Claim C15, refuted as stated: when no file can be opened, `diff_files` on
the paths `missing.txt` and `other.txt` prints only `Error opening files.`, a
text in which neither path occurs. -/
theorem error_message_without_path :
    (diff_files_paths (fun _ => none) ⟨false, false, false, false, false⟩
        (lit "missing.txt") (lit "other.txt")).map (fun st => st.out)
      = some [lit "Error opening files.\n"]
    ∧ ¬ (lit "missing.txt" <:+: lit "Error opening files.\n")
    ∧ ¬ (lit "other.txt" <:+: lit "Error opening files.\n") := by
  decide

/-- Claim C15, as amended: input failure is atomic. Whenever at least one of
the two inputs cannot be opened, `diff_files` emits no difference record and no
summary line, and its only output is the fixed message `Error opening files.`,
the same whichever path failed (the message does not name the path). -/
theorem diff_files_unreadable_input (fs : List Nat → Option (List (List Nat)))
    (o : Options) (file1 file2 : List Nat)
    (h : FOPEN fs file1 = none ∨ FOPEN fs file2 = none) :
    ∃ st, diff_files_paths fs o file1 file2 = some st
      ∧ st.records = [] ∧ st.differences = 0
      ∧ st.out = [lit "Error opening files.\n"] := by
  unfold diff_files_paths
  rcases h with h | h
  · rw [h]
    exact ⟨_, rfl, rfl, rfl, rfl⟩
  · rw [h]
    cases FOPEN fs file1 <;> exact ⟨_, rfl, rfl, rfl, rfl⟩

theorem diff_files_unreadable_input_witness :
    (FOPEN (fun path => if path = lit "a.txt" then some [lit "x\n"] else none)
        (lit "a.txt") = none
      ∨ FOPEN (fun path => if path = lit "a.txt" then some [lit "x\n"] else none)
        (lit "b.txt") = none)
    ∧ ∃ st, diff_files_paths
          (fun path => if path = lit "a.txt" then some [lit "x\n"] else none)
          ⟨false, false, false, false, false⟩ (lit "a.txt") (lit "b.txt") = some st
      ∧ st.records = [] ∧ st.differences = 0
      ∧ st.out = [lit "Error opening files.\n"] :=
  ⟨Or.inr (by decide),
   diff_files_unreadable_input
     (fun path => if path = lit "a.txt" then some [lit "x\n"] else none)
     ⟨false, false, false, false, false⟩ (lit "a.txt") (lit "b.txt") (Or.inr (by decide))⟩

/-- Claim C17, the code at the failing input: with the character-difference
option set and the colour option not set, `diff_files` on `a` against `b`
prints the changed character inside the yellow escape sequence and the colour
reset. -/
theorem char_diff_colours_without_colour_option :
    (diff_files ⟨false, true, false, false, false⟩ (some [lit "a\n"]) (some [lit "b\n"])).map
        (fun st => st.out)
      = some [lit "Difference at line 1:\n", lit "File1: a\n", lit "File2: b\n",
          lit "Char diff:\n", lit "  ", lit "\x1b[33m+b\x1b[0m", lit "\n", lit "\n",
          lit "---------------------------------\n", lit "Total differences 1\n"] := by
  decide

/-! ## Inputs within and beyond the range of `int` -/

theorem INT_MAX_eq : INT_MAX = 2147483647 := rfl

theorem int32_of_lt_INT_MAX {n m : Nat} (h : m < INT_MAX) (hn : n ≤ m + 1) :
    int32 n = (n : Int) := by
  rw [INT_MAX_eq] at h
  exact int32_of_lt (by omega)

theorem positional_records_int32_line (o : Options) {L R : List (List Nat)}
    (hint : max L.length R.length < INT_MAX) {r : DiffRecord}
    (hr : r ∈ positional_records o 1 L R) : int32 r.line = (r.line : Int) := by
  obtain ⟨_, h2, _⟩ := (positional_records_mem_iff o L 1 R r).1 hr
  exact int32_of_lt_INT_MAX hint (by omega)

theorem positional_records_int32_length (o : Options) {L R : List (List Nat)}
    (hL : Lines L) (hR : Lines R) (hint : max L.length R.length < INT_MAX) :
    int32 (positional_records o 1 L R).length = ((positional_records o 1 L R).length : Int) := by
  have hb := (positional_records_length_bounds o 1 hL hR).2
  exact int32_of_lt_INT_MAX hint (by omega)

theorem Lines_replicate_append {a : List Nat} (ha : Line a) (m : Nat)
    {L : List (List Nat)} (hL : Lines L) : Lines (List.replicate m a ++ L) := by
  intro l hl
  rcases List.mem_append.1 hl with h | h
  · rw [List.eq_of_mem_replicate h]; exact ha
  · exact hL l h

theorem Lines_replicate {a : List Nat} (ha : Line a) (m : Nat) :
    Lines (List.replicate m a) := by
  intro l hl
  rw [List.eq_of_mem_replicate hl]; exact ha

theorem Lines_cons {a : List Nat} (ha : Line a) {L : List (List Nat)} (hL : Lines L) :
    Lines (a :: L) := by
  intro l hl
  rcases List.mem_cons.1 hl with h | h
  · rw [h]; exact ha
  · exact hL l h

theorem positional_records_replicate (o : Options) {a : List Nat} (ha : Line a)
    (L R : List (List Nat)) :
    ∀ (m i : Nat), positional_records o i (List.replicate m a ++ L) (List.replicate m a ++ R)
      = positional_records o (i + m) L R := by
  intro m
  induction m with
  | zero => intro i; rfl
  | succ m ih =>
    intro i
    have hc := (compare_lines_zero_iff o ha ha).2 rfl
    have e : i + (m + 1) = i + 1 + m := by omega
    rw [List.replicate_succ, List.cons_append, List.cons_append, e, ← ih (i + 1)]
    simp only [positional_records, hc, if_true]

theorem diff_files_out_getLast (o : Options) {L R : List (List Nat)}
    (hL : Lines L) (hR : Lines R) :
    (diff_files o (some L) (some R)).map (fun st => st.out.getLast?)
      = some (some (summary (positional_records o 1 L R).length)) := by
  rw [diff_files_eq o hL hR]
  simp only [Option.map_some', List.getLast?_append, List.getLast?_singleton]
  rfl

theorem diff_files_replicate_left_summary (o : Options) {a : List Nat} (ha : Line a) (m : Nat) :
    (diff_files o (some (List.replicate m a)) (some [])).map (fun st => st.out.getLast?)
      = some (some (summary m)) := by
  rw [diff_files_out_getLast o (Lines_replicate ha m) Lines_nil,
    positional_records_nil_right, List.length_map, positional_right_length,
    List.length_replicate]

theorem diff_files_after_equal_lines (o : Options) {a : List Nat} (ha : Line a) (m : Nat)
    {L R : List (List Nat)} (hL : Lines L) (hR : Lines R) :
    (diff_files o (some (List.replicate m a ++ L)) (some (List.replicate m a ++ R))).map
        (fun st => (st.records, st.out))
      = some (positional_records o (1 + m) L R,
          (positional_records o (1 + m) L R).flatMap
              (fun r => report_difference o (int32 r.line) r.file1 r.file2)
            ++ [summary (positional_records o (1 + m) L R).length]) := by
  rw [diff_files_eq o (Lines_replicate_append ha m hL) (Lines_replicate_append ha m hR),
    positional_records_replicate o ha L R m 1]
  rfl

/-! ## Totals and the summary line -/

/-- Claim C19, refuted as stated: for `2^31` lines against an empty input the
variable `differences` has wrapped around and `diff_files` prints the total
`-2147483648`, which is below the difference of the two lengths. -/
theorem total_after_two_to_the_31_differences :
    (diff_files ⟨false, false, false, false, false⟩
        (some (List.replicate 2147483648 (lit "a\n"))) (some [])).map
      (fun st => st.out.getLast?)
      = some (some (lit "Total differences -2147483648\n")) :=
  (diff_files_replicate_left_summary ⟨false, false, false, false, false⟩ (by decide)
    2147483648).trans (by decide)

/-- Claim C19, as amended: bounds on the reported count. For every pair of line
sequences of fewer than `INT_MAX` lines each and every option setting, the
number `d` of differences reported by `diff_files` (the value of the variable
`differences`, which has not wrapped) satisfies
`|len(L) - len(R)| ≤ d ≤ max(len(L), len(R))`; such inputs of different lengths
are never reported identical. -/
theorem diff_files_count_bounds (o : Options) (L R : List (List Nat))
    (hL : Lines L) (hR : Lines R) (hint : max L.length R.length < INT_MAX) :
    ∃ st, diff_files o (some L) (some R) = some st
      ∧ int32 st.differences = (st.differences : Int)
      ∧ L.length - R.length ≤ st.differences
      ∧ R.length - L.length ≤ st.differences
      ∧ st.differences ≤ max L.length R.length
      ∧ (L.length ≠ R.length →
          st.differences ≠ 0 ∧ lit "Files are identical.\n" ∉ st.out) := by
  have hb := positional_records_length_bounds o 1 hL hR
  have h32 := positional_records_int32_length o hL hR hint
  refine ⟨_, diff_files_eq o hL hR, h32, by simp only; omega, by simp only; omega, hb.2, ?_⟩
  intro hne
  have hd : (positional_records o 1 L R).length ≠ 0 := by omega
  refine ⟨hd, ?_⟩
  intro hmem
  have h0 := (identical_mem_out_iff o _ _).1 hmem
  rw [h32] at h0
  exact hd (by exact_mod_cast h0)

theorem diff_files_count_bounds_witness :
    Lines [lit "a\n", lit "b\n", lit "c\n"] ∧ Lines [lit "A\n"]
    ∧ max [lit "a\n", lit "b\n", lit "c\n"].length [lit "A\n"].length < INT_MAX
    ∧ ∃ st, diff_files ⟨false, false, false, true, true⟩
          (some [lit "a\n", lit "b\n", lit "c\n"]) (some [lit "A\n"]) = some st
      ∧ int32 st.differences = (st.differences : Int)
      ∧ [lit "a\n", lit "b\n", lit "c\n"].length - [lit "A\n"].length ≤ st.differences
      ∧ [lit "A\n"].length - [lit "a\n", lit "b\n", lit "c\n"].length ≤ st.differences
      ∧ st.differences ≤ max [lit "a\n", lit "b\n", lit "c\n"].length [lit "A\n"].length
      ∧ ([lit "a\n", lit "b\n", lit "c\n"].length ≠ [lit "A\n"].length →
          st.differences ≠ 0 ∧ lit "Files are identical.\n" ∉ st.out) :=
  ⟨by decide, by decide, by decide,
   diff_files_count_bounds ⟨false, false, false, true, true⟩
     [lit "a\n", lit "b\n", lit "c\n"] [lit "A\n"] (by decide) (by decide) (by decide)⟩

/-- Claim C6, refuted as stated: for `2^32` lines against an empty input the
variable `differences` has wrapped around to `0` and `diff_files` prints
`Files are identical.`, although the inputs differ in length and `2^32`
differences were found. -/
theorem identical_after_two_to_the_32_differences :
    (diff_files ⟨false, false, false, false, false⟩
        (some (List.replicate 4294967296 (lit "a\n"))) (some [])).map
      (fun st => st.out.getLast?)
      = some (some (lit "Files are identical.\n")) :=
  (diff_files_replicate_left_summary ⟨false, false, false, false, false⟩ (by decide)
    4294967296).trans (by decide)

/-- Claim C6, as amended: for every pair of line sequences of fewer than
`INT_MAX` lines each and every option setting, `diff_files` prints
`Files are identical.` if and only if it found zero differences, that is if
and only if the inputs have the same number of lines and every same-index pair
of lines has equal comparison keys; otherwise the summary gives a total that
is at least `1` and equals the number of difference records. -/
theorem diff_files_identical_iff (o : Options) (L R : List (List Nat))
    (hL : Lines L) (hR : Lines R) (hint : max L.length R.length < INT_MAX) :
    ∃ st, diff_files o (some L) (some R) = some st
      ∧ int32 st.differences = (st.differences : Int)
      ∧ (lit "Files are identical.\n" ∈ st.out ↔ st.differences = 0)
      ∧ (st.differences = 0 ↔
          L.length = R.length ∧ ∀ p ∈ L.zip R, normalize o p.1 = normalize o p.2)
      ∧ (st.differences ≠ 0 →
          st.out.getLast?
              = some (lit "Total differences " ++ fmt_d (st.differences : Int) ++ lit "\n")
            ∧ 1 ≤ st.differences ∧ st.differences = st.records.length) := by
  have h32 := positional_records_int32_length o hL hR hint
  refine ⟨_, diff_files_eq o hL hR, h32, ?_, ?_, ?_⟩
  · rw [identical_mem_out_iff, h32]
    simp only
    omega
  · simp only [List.length_eq_zero]
    exact positional_records_eq_nil_iff o L 1 R hL hR
  · intro hne
    have hne1 : (positional_records o 1 L R).length ≠ 0 := hne
    have hne2 : int32 (positional_records o 1 L R).length ≠ 0 := by
      rw [h32]; exact_mod_cast hne1
    refine ⟨?_, Nat.one_le_iff_ne_zero.2 hne1, rfl⟩
    show List.getLast? (_ ++ [summary (positional_records o 1 L R).length]) = _
    rw [List.getLast?_append, (summary_pos hne2).1, h32]
    rfl

theorem diff_files_identical_iff_witness :
    Lines [lit "Hello\n", lit "a b\n"] ∧ Lines [lit "hello\n", lit "ab\n"]
    ∧ max [lit "Hello\n", lit "a b\n"].length [lit "hello\n", lit "ab\n"].length < INT_MAX
    ∧ ∃ st, diff_files ⟨false, false, false, true, true⟩ (some [lit "Hello\n", lit "a b\n"])
          (some [lit "hello\n", lit "ab\n"]) = some st
      ∧ int32 st.differences = (st.differences : Int)
      ∧ (lit "Files are identical.\n" ∈ st.out ↔ st.differences = 0)
      ∧ (st.differences = 0 ↔
          [lit "Hello\n", lit "a b\n"].length = [lit "hello\n", lit "ab\n"].length
            ∧ ∀ p ∈ [lit "Hello\n", lit "a b\n"].zip [lit "hello\n", lit "ab\n"],
                normalize ⟨false, false, false, true, true⟩ p.1
                  = normalize ⟨false, false, false, true, true⟩ p.2)
      ∧ (st.differences ≠ 0 →
          st.out.getLast?
              = some (lit "Total differences " ++ fmt_d (st.differences : Int) ++ lit "\n")
            ∧ 1 ≤ st.differences ∧ st.differences = st.records.length) :=
  ⟨by decide, by decide, by decide,
   diff_files_identical_iff ⟨false, false, false, true, true⟩ [lit "Hello\n", lit "a b\n"]
     [lit "hello\n", lit "ab\n"] (by decide) (by decide) (by decide)⟩

/-! ## An empty input, and one line removed: the reports -/

/-- Claim C9, refuted as stated: an empty left input against the two lines
`a`, `b` gives `2` differences (two records, and the total printed is `2`),
not `1`; and so do the two lines against an empty right input. -/
theorem empty_input_against_two_lines :
    (diff_files ⟨false, false, false, false, false⟩ (some []) (some [lit "a\n", lit "b\n"])).map
        (fun st => (st.differences, st.records.length, st.out.getLast?))
      = some (2, 2, some (lit "Total differences 2\n"))
    ∧ (diff_files ⟨false, false, false, false, false⟩ (some [lit "a\n", lit "b\n"]) (some [])).map
        (fun st => (st.differences, st.records.length, st.out.getLast?))
      = some (2, 2, some (lit "Total differences 2\n")) := by
  decide

/-- Claim C9, as amended: for every line sequence `R` of fewer than `INT_MAX`
lines, comparing an empty left input against `R` yields one record per line of
`R`, each with File1 at end of file and the line of `R` as File2, so
`diff_files` reports `len(R)` differences (`1` when `R` has one line) and, `R`
being non-empty, does not print `Files are identical.`; comparing `R` against
an empty right input yields likewise one record per line, with File2 at end of
file; when both inputs are empty nothing is reported but
`Files are identical.`. -/
theorem diff_files_empty_side (o : Options) (R : List (List Nat)) (hR : Lines R)
    (hint : R.length < INT_MAX) :
    (∃ st, diff_files o (some []) (some R) = some st
      ∧ st.differences = R.length ∧ int32 st.differences = (R.length : Int)
      ∧ st.records.length = R.length
      ∧ (∀ r ∈ st.records, r.file1 = none)
      ∧ st.records.map (fun r => r.file2) = R.map some
      ∧ (R ≠ [] → lit "Files are identical.\n" ∉ st.out))
    ∧ (∃ st, diff_files o (some R) (some []) = some st
      ∧ st.differences = R.length ∧ int32 st.differences = (R.length : Int)
      ∧ st.records.length = R.length
      ∧ (∀ r ∈ st.records, r.file2 = none)
      ∧ st.records.map (fun r => r.file1) = R.map some
      ∧ (R ≠ [] → lit "Files are identical.\n" ∉ st.out))
    ∧ diff_files o (some []) (some []) = some ⟨1, 0, [lit "Files are identical.\n"], []⟩ := by
  have hlen : (positional_right 1 R).length = R.length := positional_right_length 1 R
  have h32 : int32 R.length = (R.length : Int) := int32_of_lt_INT_MAX hint (by omega)
  have hzero : int32 R.length = 0 → R = [] := by
    intro h0
    rw [h32] at h0
    exact List.length_eq_zero.1 (by exact_mod_cast h0)
  refine ⟨⟨_, diff_files_eq o Lines_nil hR, ?_, ?_, ?_, ?_, ?_, ?_⟩,
    ⟨_, diff_files_eq o hR Lines_nil, ?_, ?_, ?_, ?_, ?_, ?_⟩, rfl⟩
  · exact hlen
  · show int32 (positional_right 1 R).length = _
    rw [hlen, h32]
  · exact hlen
  · intro r hr; exact positional_right_file1 hr
  · exact positional_right_file2 R 1
  · intro hne hmem
    have h0 := (identical_mem_out_iff o _ _).1 hmem
    have h1 : int32 R.length = 0 := hlen ▸ h0
    exact hne (hzero h1)
  · simp [positional_records_nil_right, hlen]
  · simp only [positional_records_nil_right, List.length_map, hlen, h32]
  · simp [positional_records_nil_right, hlen]
  · intro r hr
    simp only [positional_records_nil_right, List.mem_map] at hr
    obtain ⟨s, hs, rfl⟩ := hr
    exact positional_right_file1 hs
  · simp only [positional_records_nil_right, List.map_map]
    exact positional_right_file2 R 1
  · intro hne hmem
    have h0 := (identical_mem_out_iff o _ _).1 hmem
    simp only [positional_records_nil_right, List.length_map, hlen] at h0
    exact hne (hzero h0)

theorem diff_files_empty_side_witness :
    Lines [lit "a\n"] ∧ [lit "a\n"].length < INT_MAX
    ∧ (∃ st, diff_files ⟨false, false, false, false, false⟩ (some []) (some [lit "a\n"]) = some st
      ∧ st.differences = [lit "a\n"].length
      ∧ int32 st.differences = (([lit "a\n"].length : Nat) : Int)
      ∧ st.records.length = [lit "a\n"].length
      ∧ (∀ r ∈ st.records, r.file1 = none)
      ∧ st.records.map (fun r => r.file2) = [lit "a\n"].map some
      ∧ ([lit "a\n"] ≠ [] → lit "Files are identical.\n" ∉ st.out))
    ∧ (∃ st, diff_files ⟨false, false, false, false, false⟩ (some [lit "a\n"]) (some []) = some st
      ∧ st.differences = [lit "a\n"].length
      ∧ int32 st.differences = (([lit "a\n"].length : Nat) : Int)
      ∧ st.records.length = [lit "a\n"].length
      ∧ (∀ r ∈ st.records, r.file2 = none)
      ∧ st.records.map (fun r => r.file1) = [lit "a\n"].map some
      ∧ ([lit "a\n"] ≠ [] → lit "Files are identical.\n" ∉ st.out))
    ∧ diff_files ⟨false, false, false, false, false⟩ (some []) (some [])
        = some ⟨1, 0, [lit "Files are identical.\n"], []⟩ :=
  ⟨by decide, by decide,
   diff_files_empty_side ⟨false, false, false, false, false⟩ [lit "a\n"] (by decide)
     (by decide)⟩

/-- Claim C10, refuted as stated: removing the first of the three lines `a`,
`b`, `c` makes `diff_files` report `3` differences, not `1`. -/
theorem diff_files_first_line_removed :
    [lit "a\n", lit "b\n", lit "c\n"].eraseIdx 0 = [lit "b\n", lit "c\n"]
    ∧ (diff_files ⟨false, false, false, false, false⟩ (some [lit "a\n", lit "b\n", lit "c\n"])
        (some ([lit "a\n", lit "b\n", lit "c\n"].eraseIdx 0))).map
      (fun st => (st.differences, st.out.getLast?))
      = some (3, some (lit "Total differences 3\n")) := by
  decide

/-- Claim C10, as amended: for every line sequence `L` of fewer than `INT_MAX`
lines and every position `k` in `[1..len(L)]`, if `R` is `L` with the line at
position `k` removed, then `diff_files` on `(L, R)` reports at least `1` and at
most `len(L) - k + 1` differences, all at line numbers from `k` on (the lines
before `k` are treated as equal); when the removed line is the last one
(`k = len(L)`) it reports exactly `1` difference, as for `L = [a, b]`,
`R = [a]`. -/
theorem diff_files_one_line_removed (o : Options) (L : List (List Nat)) (k : Nat)
    (hL : Lines L) (hint : L.length < INT_MAX) (hk1 : 1 ≤ k) (hk2 : k ≤ L.length) :
    ∃ st, diff_files o (some L) (some (L.eraseIdx (k - 1))) = some st
      ∧ int32 st.differences = (st.differences : Int)
      ∧ 1 ≤ st.differences ∧ st.differences ≤ L.length - k + 1
      ∧ (∀ r ∈ st.records, int32 r.line = (r.line : Int) ∧ k ≤ r.line)
      ∧ (k = L.length → st.differences = 1) := by
  obtain ⟨h1, h2, h3⟩ := positional_records_eraseIdx o L 1 (k - 1) (by omega) hL
  have hR := Lines_eraseIdx hL (k - 1)
  have hlenR : (L.eraseIdx (k - 1)).length ≤ L.length := by
    rw [List.length_eraseIdx]; split <;> omega
  have hint2 : max L.length (L.eraseIdx (k - 1)).length < INT_MAX := by
    rw [max_eq_left hlenR]; exact hint
  refine ⟨_, diff_files_eq o hL hR, positional_records_int32_length o hL hR hint2, h1,
    ?_, ?_, ?_⟩
  · simp only; omega
  · intro r hr
    have := h3 r hr
    exact ⟨positional_records_int32_line o hint2 hr, by omega⟩
  · intro hk
    simp only
    omega

theorem diff_files_one_line_removed_witness :
    Lines [lit "a\n", lit "b\n"] ∧ [lit "a\n", lit "b\n"].length < INT_MAX
    ∧ 1 ≤ 2 ∧ 2 ≤ [lit "a\n", lit "b\n"].length
    ∧ ∃ st, diff_files ⟨false, false, false, false, false⟩ (some [lit "a\n", lit "b\n"])
          (some ([lit "a\n", lit "b\n"].eraseIdx (2 - 1))) = some st
      ∧ int32 st.differences = (st.differences : Int)
      ∧ 1 ≤ st.differences ∧ st.differences ≤ [lit "a\n", lit "b\n"].length - 2 + 1
      ∧ (∀ r ∈ st.records, int32 r.line = (r.line : Int) ∧ 2 ≤ r.line)
      ∧ (2 = [lit "a\n", lit "b\n"].length → st.differences = 1) :=
  ⟨by decide, by decide, by decide, by decide,
   diff_files_one_line_removed ⟨false, false, false, false, false⟩ [lit "a\n", lit "b\n"] 2
     (by decide) (by decide) (by decide) (by decide)⟩

/-! ## Reported line numbers -/

theorem diff_files_records_out (o : Options) {L R : List (List Nat)}
    (hL : Lines L) (hR : Lines R) {recs : List DiffRecord}
    (h : positional_records o 1 L R = recs) :
    (diff_files o (some L) (some R)).map (fun st => (st.records, st.out))
      = some (recs, recs.flatMap (fun r => report_difference o (int32 r.line) r.file1 r.file2)
          ++ [summary recs.length]) := by
  rw [diff_files_eq o hL hR, h]
  rfl

theorem positional_records_cons_differ (o : Options) {x y : List Nat}
    (hxy : ¬ compare_lines o x y = some 0) (i : Nat) (L R : List (List Nat)) :
    positional_records o i (x :: L) (y :: R)
      = ⟨i, some x, some y⟩ :: positional_records o (i + 1) L R := by
  simp only [positional_records, hxy, if_false]

theorem apply_records_unmatched (p : Nat) (x : List Nat) (f2 : Option (List Nat))
    (hp : int32 p < 0) :
    ∀ (L : List (List Nat)) (i : Nat), apply_records [⟨p, some x, f2⟩] i L = L := by
  intro L
  induction L with
  | nil => intro i; simp [apply_records]
  | cons l L ih =>
    intro i
    have hne : ¬ int32 p = (i : Int) := by omega
    simp only [apply_records, hne, if_false, ih (i + 1)]

/-- Claim C11, refuted as stated: two inputs of `2^31` lines that differ only in
their last line, at index `k = 2^31`, give one difference, and the report
reads `Difference at line -2147483648`: the variable `line` has wrapped
around, and the line number reported is not `k`. -/
theorem substitution_at_line_two_to_the_31 :
    (diff_files ⟨false, false, false, false, false⟩
        (some (List.replicate 2147483647 (lit "a\n") ++ [lit "x\n"]))
        (some (List.replicate 2147483647 (lit "a\n") ++ [lit "y\n"]))).map
      (fun st => (st.records, st.out))
      = some ([⟨2147483648, some (lit "x\n"), some (lit "y\n")⟩],
          [lit "Difference at line -2147483648:\n", lit "File1: x\n", lit "File2: y\n",
           lit "---------------------------------\n", lit "Total differences 1\n"]) := by
  have hrecs : positional_records ⟨false, false, false, false, false⟩ 1
      (List.replicate 2147483647 (lit "a\n") ++ [lit "x\n"])
      (List.replicate 2147483647 (lit "a\n") ++ [lit "y\n"])
      = [⟨2147483648, some (lit "x\n"), some (lit "y\n")⟩] :=
    (positional_records_replicate ⟨false, false, false, false, false⟩ (by decide)
      [lit "x\n"] [lit "y\n"] 2147483647 1).trans (by decide)
  exact (diff_files_records_out ⟨false, false, false, false, false⟩
    (Lines_replicate_append (by decide) 2147483647 (by decide))
    (Lines_replicate_append (by decide) 2147483647 (by decide)) hrecs).trans (by decide)

/-- Claim C11, as amended: single-line substitution. For all line sequences `L`
and `R` of equal length, of fewer than `INT_MAX` lines, whose comparison keys
differ at exactly one index `k`, `diff_files` reports exactly `1` difference,
at line number `k` (the number printed is `k`), whose File1 content is `L[k]`
and whose File2 content is `R[k]`; every other line is treated as equal. -/
theorem diff_files_single_substitution (o : Options) (L R : List (List Nat)) (k : Nat)
    (hL : Lines L) (hR : Lines R) (hlen : L.length = R.length)
    (hint : L.length < INT_MAX)
    (hk1 : 1 ≤ k) (hk2 : k ≤ L.length)
    (hkey : ∀ p ∈ (L.zip R).enum,
      (normalize o p.2.1 = normalize o p.2.2 ↔ p.1 + 1 ≠ k)) :
    ∃ st a b, diff_files o (some L) (some R) = some st
      ∧ L[k - 1]? = some a ∧ R[k - 1]? = some b
      ∧ st.differences = 1
      ∧ st.records = [⟨k, some a, some b⟩]
      ∧ int32 k = (k : Int)
      ∧ st.out = report_difference o (k : Int) (some a) (some b)
                  ++ [lit "Total differences 1\n"]
      ∧ st.line - 1 - st.differences = L.length - 1 := by
  have hrec := positional_records_single o L 1 0 (k - 1) R hL hR hlen (by omega)
    (by
      intro p hp
      rw [hkey p hp]
      constructor <;> intro h1 h2 <;> apply h1 <;> omega)
  have e : 1 + (k - 1) = k := by omega
  rw [e] at hrec
  have hkL : k - 1 < L.length := by omega
  have hkR : k - 1 < R.length := by omega
  have ha : L[k - 1]? = some L[k - 1] := List.getElem?_eq_getElem hkL
  have hb : R[k - 1]? = some R[k - 1] := List.getElem?_eq_getElem hkR
  have hk32 : int32 k = (k : Int) := by
    rw [INT_MAX_eq] at hint
    exact int32_of_lt (by omega)
  refine ⟨_, _, _, diff_files_eq o hL hR, ha, hb, ?_, ?_, hk32, ?_, ?_⟩
  · simp [hrec]
  · simp only [hrec, ha, hb]
  · simp only [hrec, ha, hb, List.flatMap_cons, List.flatMap_nil, List.append_nil, hk32,
      List.length_singleton]
    rfl
  · simp only [hrec, List.length_singleton]
    omega

theorem diff_files_single_substitution_witness :
    Lines [lit "a\n", lit "b\n", lit "c\n"] ∧ Lines [lit "a\n", lit "x\n", lit "c\n"]
    ∧ [lit "a\n", lit "b\n", lit "c\n"].length = [lit "a\n", lit "x\n", lit "c\n"].length
    ∧ [lit "a\n", lit "b\n", lit "c\n"].length < INT_MAX
    ∧ 1 ≤ 2 ∧ 2 ≤ [lit "a\n", lit "b\n", lit "c\n"].length
    ∧ (∀ p ∈ ([lit "a\n", lit "b\n", lit "c\n"].zip [lit "a\n", lit "x\n", lit "c\n"]).enum,
        (normalize ⟨false, false, false, false, false⟩ p.2.1
            = normalize ⟨false, false, false, false, false⟩ p.2.2 ↔ p.1 + 1 ≠ 2))
    ∧ ∃ st a b, diff_files ⟨false, false, false, false, false⟩
          (some [lit "a\n", lit "b\n", lit "c\n"]) (some [lit "a\n", lit "x\n", lit "c\n"])
          = some st
      ∧ [lit "a\n", lit "b\n", lit "c\n"][2 - 1]? = some a
      ∧ [lit "a\n", lit "x\n", lit "c\n"][2 - 1]? = some b
      ∧ st.differences = 1
      ∧ st.records = [⟨2, some a, some b⟩]
      ∧ int32 2 = ((2 : Nat) : Int)
      ∧ st.out = report_difference ⟨false, false, false, false, false⟩ ((2 : Nat) : Int)
                    (some a) (some b)
                  ++ [lit "Total differences 1\n"]
      ∧ st.line - 1 - st.differences = [lit "a\n", lit "b\n", lit "c\n"].length - 1 :=
  ⟨by decide, by decide, by decide, by decide, by decide, by decide, by decide,
   diff_files_single_substitution ⟨false, false, false, false, false⟩
     [lit "a\n", lit "b\n", lit "c\n"] [lit "a\n", lit "x\n", lit "c\n"] 2
     (by decide) (by decide) (by decide) (by decide) (by decide) (by decide) (by decide)⟩

/-- Claim C16, refuted as stated: an input of `2^31` lines against its first
`2^31 - 1` lines gives one difference, at the index `2^31`, which is beyond the
right input; the line number reported is `-2147483648`, which is not that
index. -/
theorem missing_line_at_index_two_to_the_31 :
    (diff_files ⟨false, false, false, false, false⟩
        (some (List.replicate 2147483647 (lit "a\n") ++ [lit "x\n"]))
        (some (List.replicate 2147483647 (lit "a\n")))).map
      (fun st => (st.records, st.out))
      = some ([⟨2147483648, some (lit "x\n"), none⟩],
          [lit "Difference at line -2147483648:\n", lit "File1: x\n", lit "File2: <EOF>\n",
           lit "---------------------------------\n", lit "Total differences 1\n"]) := by
  have hrecs := (positional_records_replicate ⟨false, false, false, false, false⟩
      (by decide : Line (lit "a\n")) [lit "x\n"] [] 2147483647 1).trans
    (by decide : positional_records ⟨false, false, false, false, false⟩ (1 + 2147483647)
        [lit "x\n"] [] = [⟨2147483648, some (lit "x\n"), none⟩])
  rw [List.append_nil] at hrecs
  exact (diff_files_records_out ⟨false, false, false, false, false⟩
    (Lines_replicate_append (by decide) 2147483647 (by decide))
    (Lines_replicate (by decide) 2147483647) hrecs).trans (by decide)

/-- Claim C16, as amended: positional reference semantics. For every pair of
line sequences of fewer than `INT_MAX` lines each and every option setting,
line `i` of the left input is compared only with line `i` of the right input:
the reported line numbers (the numbers printed) are exactly the indices `i` in
`[1..max(len(L), len(R))]` with `i > len(L)`, or `i > len(R)`, or
`compare_lines(L[i], R[i])` non-zero, in increasing order; the difference count
is their number; each record carries the two lines of its number. -/
theorem diff_files_positional (o : Options) (L R : List (List Nat))
    (hL : Lines L) (hR : Lines R) (hint : max L.length R.length < INT_MAX) :
    ∃ st, diff_files o (some L) (some R) = some st
      ∧ st.records.map (fun r => int32 r.line)
          = ((List.range' 1 (max L.length R.length)).filter (differs_at o L R)).map
              (fun i : Nat => (i : Int))
      ∧ st.records.map (fun r => r.line)
          = (List.range' 1 (max L.length R.length)).filter (differs_at o L R)
      ∧ st.differences
          = ((List.range' 1 (max L.length R.length)).filter (differs_at o L R)).length
      ∧ int32 st.differences = (st.differences : Int)
      ∧ (∀ r ∈ st.records, r.file1 = L[r.line - 1]? ∧ r.file2 = R[r.line - 1]?) := by
  have hlines := positional_records_lines o hL hR
  have h32 : (positional_records o 1 L R).map (fun r => int32 r.line)
      = ((positional_records o 1 L R).map (fun r => r.line)).map (fun i : Nat => (i : Int)) := by
    rw [List.map_map]
    apply List.map_congr_left
    intro r hr
    exact positional_records_int32_line o hint hr
  refine ⟨_, diff_files_eq o hL hR, ?_, hlines, ?_,
    positional_records_int32_length o hL hR hint, ?_⟩
  · rw [← hlines]; exact h32
  · rw [← hlines, List.length_map]
  · intro r hr
    obtain ⟨_, _, h3, h4, _⟩ := (positional_records_mem_iff o L 1 R r).1 hr
    exact ⟨h3, h4⟩

theorem diff_files_positional_witness :
    Lines [lit "a\n", lit "b\n", lit "c\n"] ∧ Lines [lit "b\n", lit "b\n"]
    ∧ max [lit "a\n", lit "b\n", lit "c\n"].length [lit "b\n", lit "b\n"].length < INT_MAX
    ∧ ∃ st, diff_files ⟨false, false, false, false, false⟩
          (some [lit "a\n", lit "b\n", lit "c\n"]) (some [lit "b\n", lit "b\n"]) = some st
      ∧ st.records.map (fun r => int32 r.line)
          = ((List.range' 1 (max [lit "a\n", lit "b\n", lit "c\n"].length
                [lit "b\n", lit "b\n"].length)).filter
              (differs_at ⟨false, false, false, false, false⟩
                [lit "a\n", lit "b\n", lit "c\n"] [lit "b\n", lit "b\n"])).map
              (fun i : Nat => (i : Int))
      ∧ st.records.map (fun r => r.line)
          = (List.range' 1 (max [lit "a\n", lit "b\n", lit "c\n"].length
                [lit "b\n", lit "b\n"].length)).filter
              (differs_at ⟨false, false, false, false, false⟩
                [lit "a\n", lit "b\n", lit "c\n"] [lit "b\n", lit "b\n"])
      ∧ st.differences
          = ((List.range' 1 (max [lit "a\n", lit "b\n", lit "c\n"].length
                [lit "b\n", lit "b\n"].length)).filter
              (differs_at ⟨false, false, false, false, false⟩
                [lit "a\n", lit "b\n", lit "c\n"] [lit "b\n", lit "b\n"])).length
      ∧ int32 st.differences = (st.differences : Int)
      ∧ (∀ r ∈ st.records, r.file1 = [lit "a\n", lit "b\n", lit "c\n"][r.line - 1]?
            ∧ r.file2 = [lit "b\n", lit "b\n"][r.line - 1]?) :=
  ⟨by decide, by decide, by decide,
   diff_files_positional ⟨false, false, false, false, false⟩
     [lit "a\n", lit "b\n", lit "c\n"] [lit "b\n", lit "b\n"] (by decide) (by decide)
     (by decide)⟩

/-- Claim C4, refuted as stated: two inputs of `2^31` lines that differ in
their first and in their last line give two differences, reported at line `1`
and then at line `-2147483648`: the reported line numbers are not increasing
and the second is not between `1` and the number of lines. -/
theorem first_and_last_of_two_to_the_31_lines :
    (diff_files ⟨false, false, false, false, false⟩
        (some (lit "x\n" :: (List.replicate 2147483646 (lit "a\n") ++ [lit "x\n"])))
        (some (lit "y\n" :: (List.replicate 2147483646 (lit "a\n") ++ [lit "y\n"])))).map
      (fun st => (st.records, st.out))
      = some ([⟨1, some (lit "x\n"), some (lit "y\n")⟩,
               ⟨2147483648, some (lit "x\n"), some (lit "y\n")⟩],
          [lit "Difference at line 1:\n", lit "File1: x\n", lit "File2: y\n",
           lit "---------------------------------\n",
           lit "Difference at line -2147483648:\n", lit "File1: x\n", lit "File2: y\n",
           lit "---------------------------------\n", lit "Total differences 2\n"]) := by
  have htail := (positional_records_replicate ⟨false, false, false, false, false⟩
      (by decide : Line (lit "a\n")) [lit "x\n"] [lit "y\n"] 2147483646 (1 + 1)).trans
    (by decide : positional_records ⟨false, false, false, false, false⟩ (1 + 1 + 2147483646)
        [lit "x\n"] [lit "y\n"] = [⟨2147483648, some (lit "x\n"), some (lit "y\n")⟩])
  have hrecs := (positional_records_cons_differ ⟨false, false, false, false, false⟩
      (by decide : ¬ compare_lines ⟨false, false, false, false, false⟩ (lit "x\n") (lit "y\n")
        = some 0) 1
      (List.replicate 2147483646 (lit "a\n") ++ [lit "x\n"])
      (List.replicate 2147483646 (lit "a\n") ++ [lit "y\n"])).trans
    (congrArg (List.cons _) htail)
  exact (diff_files_records_out ⟨false, false, false, false, false⟩
    (Lines_cons (by decide) (Lines_replicate_append (by decide) 2147483646 (by decide)))
    (Lines_cons (by decide) (Lines_replicate_append (by decide) 2147483646 (by decide)))
    hrecs).trans (by decide)

/-- Claim C4, as amended: structural invariant. For every pair of line
sequences of fewer than `INT_MAX` lines each, the walk of `diff_files` makes
one pass for each line number from `1` to the larger length, pass `i` reading
line `i` of each input that has one; a pass either treats its two lines as
equal or makes exactly one record, which carries the lines of that number; so
every line of either input is covered exactly once, and the line numbers of
the reported differences (the numbers printed) are strictly increasing and lie
between `1` and the larger length. -/
theorem diff_files_covers_each_line_once (o : Options) (L R : List (List Nat))
    (hL : Lines L) (hR : Lines R) (hint : max L.length R.length < INT_MAX) :
    ∃ st, diff_files o (some L) (some R) = some st
      ∧ st.line = max L.length R.length + 1
      ∧ int32 st.line = (st.line : Int)
      ∧ int32 st.differences = (st.differences : Int)
      ∧ st.records.Pairwise (fun r s => int32 r.line < int32 s.line)
      ∧ (∀ r ∈ st.records, int32 r.line = (r.line : Int)
            ∧ 1 ≤ r.line ∧ r.line ≤ max L.length R.length
            ∧ r.file1 = L[r.line - 1]? ∧ r.file2 = R[r.line - 1]?)
      ∧ (∀ i, 1 ≤ i → i ≤ max L.length R.length →
            ((∃ r ∈ st.records, r.line = i) ↔
              ¬ ∃ a b, L[i - 1]? = some a ∧ R[i - 1]? = some b
                  ∧ compare_lines o a b = some 0))
      ∧ st.records.countP (fun r => r.file1.isSome) + (st.line - 1 - st.differences)
          = L.length
      ∧ st.records.countP (fun r => r.file2.isSome) + (st.line - 1 - st.differences)
          = R.length := by
  have hadd := positional_records_length_add o L 1 R hL hR
  have hc1 := positional_records_countP_file1 o L 1 R hL hR
  have hc2 := positional_records_countP_file2 o L 1 R hL hR
  refine ⟨_, diff_files_eq o hL hR, by simp only; omega,
    int32_of_lt_INT_MAX hint (by simp only; omega),
    positional_records_int32_length o hL hR hint, ?_, ?_, ?_, by simp only; omega,
    by simp only; omega⟩
  · refine List.Pairwise.imp_of_mem ?_ (positional_records_pairwise o L 1 R)
    intro r s hr hs hlt
    rw [positional_records_int32_line o hint hr, positional_records_int32_line o hint hs]
    exact_mod_cast hlt
  · intro r hr
    obtain ⟨h1, h2, h3, h4, _⟩ := (positional_records_mem_iff o L 1 R r).1 hr
    exact ⟨positional_records_int32_line o hint hr, h1, by omega, h3, h4⟩
  · intro i hi1 hi2
    simp only
    constructor
    · rintro ⟨r, hr, rfl⟩ ⟨a, b, ha, hb, hab⟩
      obtain ⟨_, _, h3, h4, h5⟩ := (positional_records_mem_iff o L 1 R r).1 hr
      exact h5 ⟨a, b, h3.trans ha, h4.trans hb, hab⟩
    · intro hne
      refine ⟨⟨i, L[i - 1]?, R[i - 1]?⟩, ?_, rfl⟩
      rw [positional_records_mem_iff]
      exact ⟨hi1, by simp only; omega, rfl, rfl, hne⟩

theorem diff_files_covers_each_line_once_witness :
    Lines [lit "a\n", lit "b\n", lit "c\n"] ∧ Lines [lit "a\n", lit "x\n"]
    ∧ max [lit "a\n", lit "b\n", lit "c\n"].length [lit "a\n", lit "x\n"].length < INT_MAX
    ∧ ∃ st, diff_files ⟨false, false, false, false, false⟩
          (some [lit "a\n", lit "b\n", lit "c\n"]) (some [lit "a\n", lit "x\n"]) = some st
      ∧ st.line = max [lit "a\n", lit "b\n", lit "c\n"].length [lit "a\n", lit "x\n"].length + 1
      ∧ int32 st.line = (st.line : Int)
      ∧ int32 st.differences = (st.differences : Int)
      ∧ st.records.Pairwise (fun r s => int32 r.line < int32 s.line)
      ∧ (∀ r ∈ st.records, int32 r.line = (r.line : Int)
            ∧ 1 ≤ r.line
            ∧ r.line ≤ max [lit "a\n", lit "b\n", lit "c\n"].length [lit "a\n", lit "x\n"].length
            ∧ r.file1 = [lit "a\n", lit "b\n", lit "c\n"][r.line - 1]?
            ∧ r.file2 = [lit "a\n", lit "x\n"][r.line - 1]?)
      ∧ (∀ i, 1 ≤ i →
            i ≤ max [lit "a\n", lit "b\n", lit "c\n"].length [lit "a\n", lit "x\n"].length →
            ((∃ r ∈ st.records, r.line = i) ↔
              ¬ ∃ a b, [lit "a\n", lit "b\n", lit "c\n"][i - 1]? = some a
                  ∧ [lit "a\n", lit "x\n"][i - 1]? = some b
                  ∧ compare_lines ⟨false, false, false, false, false⟩ a b = some 0))
      ∧ st.records.countP (fun r => r.file1.isSome) + (st.line - 1 - st.differences)
          = [lit "a\n", lit "b\n", lit "c\n"].length
      ∧ st.records.countP (fun r => r.file2.isSome) + (st.line - 1 - st.differences)
          = [lit "a\n", lit "x\n"].length :=
  ⟨by decide, by decide, by decide,
   diff_files_covers_each_line_once ⟨false, false, false, false, false⟩
     [lit "a\n", lit "b\n", lit "c\n"] [lit "a\n", lit "x\n"] (by decide) (by decide)
     (by decide)⟩

/-- Claim C3, refuted as stated: for two inputs of `2^31` lines that differ
only in their last line, the single difference is reported at line
`-2147483648`, a number that designates no line, so applying the reported
differences to the left input gives back the left input, not the right one. -/
theorem round_trip_past_two_to_the_31_lines :
    (diff_files ⟨false, false, false, false, false⟩
        (some (List.replicate 2147483647 (lit "a\n") ++ [lit "b\n"]))
        (some (List.replicate 2147483647 (lit "a\n") ++ [lit "c\n"]))).map
      (fun st => (st.records.map (fun r => int32 r.line),
        apply_records st.records 1 (List.replicate 2147483647 (lit "a\n") ++ [lit "b\n"])))
      = some ([-2147483648], List.replicate 2147483647 (lit "a\n") ++ [lit "b\n"])
    ∧ List.replicate 2147483647 (lit "a\n") ++ [lit "b\n"]
        ≠ List.replicate 2147483647 (lit "a\n") ++ [lit "c\n"] := by
  have hrecs : positional_records ⟨false, false, false, false, false⟩ 1
      (List.replicate 2147483647 (lit "a\n") ++ [lit "b\n"])
      (List.replicate 2147483647 (lit "a\n") ++ [lit "c\n"])
      = [⟨2147483648, some (lit "b\n"), some (lit "c\n")⟩] :=
    (positional_records_replicate ⟨false, false, false, false, false⟩ (by decide)
      [lit "b\n"] [lit "c\n"] 2147483647 1).trans (by decide)
  constructor
  · rw [diff_files_eq ⟨false, false, false, false, false⟩
      (Lines_replicate_append (by decide) 2147483647 (by decide))
      (Lines_replicate_append (by decide) 2147483647 (by decide)), hrecs]
    show some (_, apply_records [⟨2147483648, some (lit "b\n"), some (lit "c\n")⟩] 1 _) = _
    rw [apply_records_unmatched 2147483648 (lit "b\n") (some (lit "c\n")) (by decide)]
    rfl
  · intro h
    exact absurd (List.append_cancel_left h) (by decide)

/-- Claim C3, as amended: round trip. For every pair of line sequences of
fewer than `INT_MAX` lines each, with both ignore options off, applying the
difference records produced by `diff_files` to the left sequence (replace at a
reported line number, delete when File2 is at end of file, insert when File1
is at end of file, keep every unreported line) reconstructs the right sequence
exactly. -/
theorem diff_files_round_trip (o : Options) (L R : List (List Nat))
    (hws : o.opt_ignore_ws = false) (hcase : o.opt_ignore_case = false)
    (hL : Lines L) (hR : Lines R) (hint : max L.length R.length < INT_MAX) :
    ∃ st, diff_files o (some L) (some R) = some st ∧ apply_records st.records 1 L = R :=
  ⟨_, diff_files_eq o hL hR,
    apply_positional_records o hws hcase L 1 R hL hR (by rw [INT_MAX_eq] at hint; omega)⟩

theorem diff_files_round_trip_witness :
    (⟨false, false, false, false, false⟩ : Options).opt_ignore_ws = false
    ∧ (⟨false, false, false, false, false⟩ : Options).opt_ignore_case = false
    ∧ Lines [lit "a\n", lit "b\n", lit "c\n"] ∧ Lines [lit "a\n", lit "x\n", lit "c\n", lit "d\n"]
    ∧ max [lit "a\n", lit "b\n", lit "c\n"].length
        [lit "a\n", lit "x\n", lit "c\n", lit "d\n"].length < INT_MAX
    ∧ ∃ st, diff_files ⟨false, false, false, false, false⟩ (some [lit "a\n", lit "b\n", lit "c\n"])
          (some [lit "a\n", lit "x\n", lit "c\n", lit "d\n"]) = some st
      ∧ apply_records st.records 1 [lit "a\n", lit "b\n", lit "c\n"]
          = [lit "a\n", lit "x\n", lit "c\n", lit "d\n"] :=
  ⟨rfl, rfl, by decide, by decide, by decide,
   diff_files_round_trip ⟨false, false, false, false, false⟩ [lit "a\n", lit "b\n", lit "c\n"]
     [lit "a\n", lit "x\n", lit "c\n", lit "d\n"] rfl rfl (by decide) (by decide) (by decide)⟩

end FileDiff
